import Mathlib

/-!
# Pod startup latency tracker

A shallow embedding of `main.go`: the three informer callbacks `addPod`,
`updatePod` and `deletePod`, the process-level state they share
(`startTime`, `watchPods`), and the library functions they call
(`podutil.IsPodReady`, `podutil.GetPodReadyCondition`, `time.Time.After`,
`time.Time.Sub`).

Conventions of the embedding:

* `watchPods` is a Go map used as a set of keys; it is a `Finset UID` and is
  passed through the callbacks explicitly.
* `startTime` is written once, before any event, and is a parameter.
* `log.Printf("startup duration of %s: %s", name, duration)` is the only
  output; each call appends one `Record` holding its two arguments.
* A nil-pointer dereference aborts the callback: the result is `none`.
* Go's `int64` is `Int` reduced by `wrap64` after every operation that may
  overflow.
-/

namespace PodStartup

/-! ## Go `time` -/

/-- Go `time.Duration`: a signed 64-bit count of nanoseconds.  The constants
below are typed `Int` directly. -/
abbrev Duration := Int

/-- Two's-complement reduction of an integer to the `int64` range. -/
def wrap64 (x : Int) : Int := (x + 2 ^ 63) % 2 ^ 64 - 2 ^ 63

/-- Go `time.minDuration`, `-1 << 63`. -/
def minDuration : Int := -2 ^ 63

/-- Go `time.maxDuration`, `1<<63 - 1`. -/
def maxDuration : Int := 2 ^ 63 - 1

/-- Go `time.Second`, in nanoseconds. -/
def Second : Int := 1000000000

/-- Go `time.Time` on its wall-clock reading: `sec` is the value of `t.sec()`
(an `int64` count of seconds since January 1, year 1) and `nsec` the value of
`t.nsec()` (an `int32` in `[0, 999999999]`).  Timestamps decoded from the API
carry no monotonic reading, so every comparison and subtraction in `main.go`
has at least one operand without it and takes the wall-clock branch. -/
structure Time where
  sec : Int
  nsec : Int
deriving DecidableEq, Repr

namespace Time

/-- The timestamps a `time.Time` can hold: `sec` fits `int64` and `nsec` is a
nanosecond count within one second. -/
def Representable (t : Time) : Prop :=
  -2 ^ 63 ≤ t.sec ∧ t.sec < 2 ^ 63 ∧ 0 ≤ t.nsec ∧ t.nsec < 1000000000

instance (t : Time) : Decidable t.Representable := by
  unfold Representable; infer_instance

/-- Go `Time.After`: `ts > us || ts == us && t.nsec() > u.nsec()`. -/
def After (t u : Time) : Bool :=
  decide (t.sec > u.sec) || (decide (t.sec = u.sec) && decide (t.nsec > u.nsec))

/-- Go `Time.Before`. -/
def Before (t u : Time) : Bool :=
  decide (t.sec < u.sec) || (decide (t.sec = u.sec) && decide (t.nsec < u.nsec))

/-- Go `Time.Equal`. -/
def Equal (t u : Time) : Bool :=
  decide (t.sec = u.sec) && decide (t.nsec = u.nsec)

/-- Go `Time.addSec` on a time without monotonic reading: the sum of `t.ext`
and `d`, saturated when it overflows. -/
def addSec (t : Time) (d : Int) : Time :=
  let sum := wrap64 (t.sec + d)
  if decide (sum > t.sec) = decide (d > 0) then { t with sec := sum }
  else if d > 0 then { t with sec := 2 ^ 63 - 1 }
  else { t with sec := -(2 ^ 63 - 1) }

/-- Go `Time.Add`: split `d` into whole seconds and nanoseconds (truncated
division), carry the nanoseconds into `[0, 1e9)`, then `addSec`. -/
def Add (t : Time) (d : Duration) : Time :=
  let dsec := Int.tdiv d 1000000000
  let nsec := t.nsec + Int.tmod d 1000000000
  if nsec ≥ 1000000000 then
    addSec { t with nsec := nsec - 1000000000 } (dsec + 1)
  else if nsec < 0 then
    addSec { t with nsec := nsec + 1000000000 } (dsec - 1)
  else
    addSec { t with nsec := nsec } dsec

/-- Go `Time.Sub`: the `int64` difference in nanoseconds, checked by adding
it back; on overflow the result saturates at `minDuration` or `maxDuration`. -/
def Sub (t u : Time) : Duration :=
  let d := wrap64 (wrap64 (wrap64 (t.sec - u.sec) * Second) + (t.nsec - u.nsec))
  if (u.Add d).Equal t then d
  else if t.Before u then minDuration
  else maxDuration

/-- The instant of `t` as an unbounded count of nanoseconds since year 1. -/
def nanos (t : Time) : Int := t.sec * 1000000000 + t.nsec

end Time

/-! ## Kubernetes API objects -/

/-- Go `types.UID`, a string. -/
abbrev UID := String

/-- Go `v1.PodConditionType`, a string. -/
abbrev PodConditionType := String

/-- Go `v1.ConditionStatus`, a string. -/
abbrev ConditionStatus := String

/-- Go `v1.PodReady`. -/
def PodReady : PodConditionType := "Ready"

/-- Go `v1.ConditionTrue`. -/
def ConditionTrue : ConditionStatus := "True"

/-- Go `v1.PodCondition`, the fields read by the tracker. -/
structure PodCondition where
  Type_ : PodConditionType
  Status : ConditionStatus
  LastTransitionTime : Time
deriving DecidableEq, Repr

/-- Go `v1.PodStatus`, the field read by the tracker. -/
structure PodStatus where
  Conditions : List PodCondition
deriving DecidableEq, Repr

/-- Go `v1.Pod`, the fields read by the tracker. -/
structure Pod where
  UID : UID
  Name : String
  CreationTimestamp : Time
  Status : PodStatus
deriving DecidableEq, Repr

/-- Go `podutil.GetPodConditionFromList`: the first condition of the given
type, `none` for the nil pointer returned when there is none. -/
def GetPodConditionFromList (conditions : List PodCondition)
    (conditionType : PodConditionType) : Option PodCondition :=
  match conditions with
  | [] => none
  | c :: rest =>
    if c.Type_ = conditionType then some c
    else GetPodConditionFromList rest conditionType

/-- Go `podutil.GetPodReadyCondition`. -/
def GetPodReadyCondition (status : PodStatus) : Option PodCondition :=
  GetPodConditionFromList status.Conditions PodReady

/-- Go `podutil.IsPodReadyConditionTrue`:
`condition != nil && condition.Status == v1.ConditionTrue`. -/
def IsPodReadyConditionTrue (status : PodStatus) : Bool :=
  match GetPodReadyCondition status with
  | none => false
  | some condition => decide (condition.Status = ConditionTrue)

/-- Go `podutil.IsPodReady`. -/
def IsPodReady (pod : Pod) : Bool := IsPodReadyConditionTrue pod.Status

/-! ## The tracker -/

/-- The two arguments of the one `log.Printf` call of the tracker. -/
structure Record where
  name : String
  duration : Duration
deriving DecidableEq, Repr

/-- The key set of the Go map `watchPods`. -/
abbrev WatchPods := Finset UID

/-- The callback `addPod` of `main.go`. -/
def addPod (startTime : Time) (watchPods : WatchPods) (pod : Pod) :
    Option (WatchPods × List Record) :=
  if startTime.After pod.CreationTimestamp then
    some (watchPods, [])
  else if IsPodReady pod then
    match GetPodReadyCondition pod.Status with
    | none => none
    | some ready =>
      some (watchPods,
        [{ name := pod.Name,
           duration := ready.LastTransitionTime.Sub pod.CreationTimestamp }])
  else
    some (insert pod.UID watchPods, [])

/-- The callback `updatePod` of `main.go`. -/
def updatePod (watchPods : WatchPods) (pod : Pod) :
    Option (WatchPods × List Record) :=
  if IsPodReady pod then
    if pod.UID ∈ watchPods then
      match GetPodReadyCondition pod.Status with
      | none => none
      | some ready =>
        some (watchPods.erase pod.UID,
          [{ name := pod.Name,
             duration := ready.LastTransitionTime.Sub pod.CreationTimestamp }])
    else some (watchPods, [])
  else some (watchPods, [])

/-- The callback `deletePod` of `main.go`. -/
def deletePod (watchPods : WatchPods) (pod : Pod) :
    Option (WatchPods × List Record) :=
  if pod.UID ∈ watchPods then some (watchPods.erase pod.UID, [])
  else some (watchPods, [])

/-- One notification of the informer, named after the handler it invokes.
`UpdateFunc` carries the new object only: the old one is not read. -/
inductive Event where
  | AddFunc (obj : Pod)
  | UpdateFunc (newObj : Pod)
  | DeleteFunc (obj : Pod)
deriving DecidableEq, Repr

/-- The pod carried by an event. -/
def Event.pod : Event → Pod
  | .AddFunc p => p
  | .UpdateFunc p => p
  | .DeleteFunc p => p

/-- Whether the event is delivered to `addPod`. -/
def Event.isAdd : Event → Bool
  | .AddFunc _ => true
  | _ => false

/-- Whether the event is delivered to `updatePod`. -/
def Event.isUpdate : Event → Bool
  | .UpdateFunc _ => true
  | _ => false

/-- Whether the event is delivered to `deletePod`. -/
def Event.isDelete : Event → Bool
  | .DeleteFunc _ => true
  | _ => false

/-- Whether the event is an Observed event for `id` whose snapshot is not ready
and passes the start-time filter of `addPod`. -/
def Event.entersPending (startTime : Time) (id : UID) : Event → Bool
  | .AddFunc p =>
    decide (p.UID = id) && !startTime.After p.CreationTimestamp && !IsPodReady p
  | _ => false

/-- Whether the event is a ready Updated event or a Removed event for `id`. -/
def Event.clearsPending (id : UID) : Event → Bool
  | .AddFunc _ => false
  | .UpdateFunc p => decide (p.UID = id) && IsPodReady p
  | .DeleteFunc p => decide (p.UID = id)

/-- Whether the event observes `id` ready, through Observed or Updated, or
removes it. -/
def Event.observedReadyOrRemoved (id : UID) : Event → Bool
  | .AddFunc p => decide (p.UID = id) && IsPodReady p
  | .UpdateFunc p => decide (p.UID = id) && IsPodReady p
  | .DeleteFunc p => decide (p.UID = id)

/-- Some event of the sequence satisfies `enters` and no event after it
satisfies `clears`. -/
def enteredAndNotCleared (enters clears : Event → Bool) : List Event → Bool
  | [] => false
  | e :: rest =>
    (enters e && rest.all (fun later => !clears later)) ||
      enteredAndNotCleared enters clears rest

/-- The handlers registered in `main`: each event goes to its callback. -/
def dispatch (startTime : Time) (watchPods : WatchPods) : Event →
    Option (WatchPods × List Record)
  | .AddFunc obj => addPod startTime watchPods obj
  | .UpdateFunc newObj => updatePod watchPods newObj
  | .DeleteFunc obj => deletePod watchPods obj

/-- Deliver a sequence of events one after the other.  The result lists, for
every event in order, the pending set after it and the records it emitted;
`none` when a callback aborted. -/
def run (startTime : Time) (watchPods : WatchPods) :
    List Event → Option (List (WatchPods × List Record))
  | [] => some []
  | e :: rest =>
    match dispatch startTime watchPods e with
    | none => none
    | some (w, out) =>
      match run startTime w rest with
      | none => none
      | some steps => some ((w, out) :: steps)

/-- All records of a run, in emission order. -/
def emitted (steps : List (WatchPods × List Record)) : List Record :=
  (steps.map Prod.snd).flatten

/-- The pending set at the end of a run that started from `watchPods`. -/
def finalPods (watchPods : WatchPods) (steps : List (WatchPods × List Record)) :
    WatchPods :=
  (steps.getLast?.map Prod.fst).getD watchPods

/-- The records emitted along a run by the events that carry `id`. -/
def recordsFor (id : UID) : List Event → List (WatchPods × List Record) → List Record
  | e :: es, (_, out) :: ss => (if e.pod.UID = id then out else []) ++ recordsFor id es ss
  | _, _ => []

/-- Whether the event is an Observed event carrying `id` whose snapshot passes
the start-time filter of `addPod`. -/
def Event.observedPassing (startTime : Time) (id : UID) (e : Event) : Bool :=
  e.isAdd && decide (e.pod.UID = id) && !startTime.After e.pod.CreationTimestamp

/-- The events of a sequence that carry `id`, in order. -/
def eventsFor (id : UID) (events : List Event) : List Event :=
  events.filter (fun e => decide (e.pod.UID = id))

/-! ## Scenario of the specification -/

/-- Seconds since year 1 of 2020-01-01T10:00:00Z. -/
def t1000 : Int := 63713469600

/-- Observer start time 10:00:00. -/
def start1000 : Time := ⟨t1000, 0⟩

/-- A ready condition with status `True` that last changed at `t`. -/
def readyAt (t : Time) : PodCondition :=
  { Type_ := "Ready", Status := "True", LastTransitionTime := t }

/-- A ready condition with status `False` that last changed at `t`. -/
def notReadyAt (t : Time) : PodCondition :=
  { Type_ := "Ready", Status := "False", LastTransitionTime := t }

/-- Instance A, created 10:00:05, not ready. -/
def podA0 : Pod :=
  { UID := "a", Name := "A", CreationTimestamp := ⟨t1000 + 5, 0⟩,
    Status := ⟨[notReadyAt ⟨t1000 + 5, 0⟩]⟩ }

/-- Instance A, ready since 10:00:08. -/
def podA1 : Pod :=
  { UID := "a", Name := "A", CreationTimestamp := ⟨t1000 + 5, 0⟩,
    Status := ⟨[⟨"Initialized", "True", ⟨t1000 + 6, 0⟩⟩, readyAt ⟨t1000 + 8, 0⟩]⟩ }

/-- Instance B, created 09:59:00, ready since 09:59:02. -/
def podB : Pod :=
  { UID := "b", Name := "B", CreationTimestamp := ⟨t1000 - 60, 0⟩,
    Status := ⟨[readyAt ⟨t1000 - 58, 0⟩]⟩ }

/-- Instance C, created 10:01:00, no condition reported yet. -/
def podC : Pod :=
  { UID := "c", Name := "C", CreationTimestamp := ⟨t1000 + 60, 0⟩, Status := ⟨[]⟩ }

/-- An instance created at 10:00:00 sharp, not ready. -/
def podE0 : Pod :=
  { UID := "e", Name := "E", CreationTimestamp := ⟨t1000, 0⟩,
    Status := ⟨[notReadyAt ⟨t1000, 0⟩]⟩ }

/-- An instance created at 10:00:00 sharp, ready since 10:00:02. -/
def podE1 : Pod :=
  { UID := "e", Name := "E", CreationTimestamp := ⟨t1000, 0⟩,
    Status := ⟨[readyAt ⟨t1000 + 2, 0⟩]⟩ }

/-- An instance created 10:00:05 whose ready condition is stamped
10000000000 seconds (about 317 years) later. -/
def podF : Pod :=
  { UID := "f", Name := "F", CreationTimestamp := ⟨t1000 + 5, 0⟩,
    Status := ⟨[readyAt ⟨t1000 + 5 + 10000000000, 0⟩]⟩ }

/-- An instance created 10:00:05 whose ready condition is `True` but carries
no transition time (the zero timestamp). -/
def podZ : Pod :=
  { UID := "z", Name := "Z", CreationTimestamp := ⟨t1000 + 5, 0⟩,
    Status := ⟨[readyAt ⟨0, 0⟩]⟩ }

/-- An instance created 10:00:05 whose ready condition is stamped with the
creation time itself. -/
def podS : Pod :=
  { UID := "s", Name := "S", CreationTimestamp := ⟨t1000 + 5, 0⟩,
    Status := ⟨[readyAt ⟨t1000 + 5, 0⟩]⟩ }

/-- An instance created 10:00:05 whose ready condition is stamped 10:00:02,
before the creation. -/
def podN : Pod :=
  { UID := "n", Name := "N", CreationTimestamp := ⟨t1000 + 5, 0⟩,
    Status := ⟨[readyAt ⟨t1000 + 2, 0⟩]⟩ }

/-! ## Library facts: time -/

theorem Time.before_eq_after (t u : Time) : t.Before u = u.After t := by
  unfold Time.Before Time.After
  have h : decide (t.sec = u.sec) = decide (u.sec = t.sec) := by
    by_cases h : t.sec = u.sec
    · simp [h]
    · have h2 : ¬ u.sec = t.sec := fun e => h e.symm
      simp [h, h2]
  rw [h]

theorem Time.after_asymm {t u : Time} (h : t.After u = true) : u.After t = false := by
  unfold Time.After at *
  simp only [Bool.or_eq_true, Bool.and_eq_true, decide_eq_true_eq] at h
  simp only [Bool.or_eq_false_iff, Bool.and_eq_false_iff, decide_eq_false_iff_not]
  omega

theorem wrap64_of_fits {x : Int} (hlo : -2 ^ 63 ≤ x) (hhi : x < 2 ^ 63) : wrap64 x = x := by
  unfold wrap64
  omega

theorem wrap64_mul_add (x y : Int) :
    wrap64 (wrap64 (wrap64 x * Second) + y) = wrap64 (x * Second + y) := by
  unfold wrap64 Second
  omega

/-- The `int64` difference computed by `Sub` is the exact one when that fits. -/
theorem Time.sub_raw_exact (t u : Time)
    (hlo : minDuration ≤ t.nanos - u.nanos) (hhi : t.nanos - u.nanos ≤ maxDuration) :
    wrap64 (wrap64 (wrap64 (t.sec - u.sec) * Second) + (t.nsec - u.nsec))
      = t.nanos - u.nanos := by
  rw [wrap64_mul_add]
  unfold Time.nanos minDuration maxDuration at *
  unfold Second
  apply (wrap64_of_fits _ _).trans
  · ring
  · have : (t.sec - u.sec) * 1000000000 + (t.nsec - u.nsec)
        = t.sec * 1000000000 + t.nsec - (u.sec * 1000000000 + u.nsec) := by ring
    omega
  · have : (t.sec - u.sec) * 1000000000 + (t.nsec - u.nsec)
        = t.sec * 1000000000 + t.nsec - (u.sec * 1000000000 + u.nsec) := by ring
    omega

/-- Adding back a non-negative exact difference lands on the later time. -/
theorem Time.add_nanos_diff (t u : Time) (ht : t.Representable) (hu : u.Representable)
    (hpos : 0 ≤ t.nanos - u.nanos) :
    u.Add (t.nanos - u.nanos) = t := by
  obtain ⟨ht1, ht2, ht3, ht4⟩ := ht
  obtain ⟨hu1, hu2, hu3, hu4⟩ := hu
  unfold Time.Add
  rw [Int.tdiv_eq_ediv hpos (by decide), Int.tmod_eq_emod hpos (by decide)]
  unfold Time.nanos at *
  cases t with
  | mk ts tn =>
  cases u with
  | mk us un =>
  simp only at *
  have hq : (ts * 1000000000 + tn - (us * 1000000000 + un))
      = 1000000000 * ((ts * 1000000000 + tn - (us * 1000000000 + un)) / 1000000000)
        + (ts * 1000000000 + tn - (us * 1000000000 + un)) % 1000000000 :=
    (Int.ediv_add_emod _ _).symm
  generalize (ts * 1000000000 + tn - (us * 1000000000 + un)) / 1000000000 = q at *
  have hr1 := Int.emod_nonneg (ts * 1000000000 + tn - (us * 1000000000 + un))
    (show (1000000000 : Int) ≠ 0 by decide)
  have hr2 := Int.emod_lt_of_pos (ts * 1000000000 + tn - (us * 1000000000 + un))
    (show (0 : Int) < 1000000000 by decide)
  generalize (ts * 1000000000 + tn - (us * 1000000000 + un)) % 1000000000 = r at *
  split_ifs with h1 h2
  · have hs : us + (q + 1) = ts := by omega
    have hn : un + r - 1000000000 = tn := by omega
    unfold Time.addSec
    simp only [hs, hn]
    rw [wrap64_of_fits ht1 ht2]
    have : decide (ts > us) = decide (q + 1 > 0) := by
      congr 1; apply propext; constructor <;> intro _ <;> omega
    simp [this]
  · omega
  · have hs : us + q = ts := by omega
    have hn : un + r = tn := by omega
    unfold Time.addSec
    simp only [hs, hn]
    rw [wrap64_of_fits ht1 ht2]
    have : decide (ts > us) = decide (q > 0) := by
      congr 1; apply propext; constructor <;> intro _ <;> omega
    simp [this]

theorem Time.equal_self (t : Time) : t.Equal t = true := by
  simp [Time.Equal]

/-- When the later time is at most `maxDuration` away, `Sub` is exact. -/
theorem Time.sub_exact (t u : Time) (ht : t.Representable) (hu : u.Representable)
    (hpos : 0 ≤ t.nanos - u.nanos) (hfit : t.nanos - u.nanos ≤ maxDuration) :
    t.Sub u = t.nanos - u.nanos := by
  have hlo : minDuration ≤ t.nanos - u.nanos := by
    unfold minDuration; omega
  unfold Time.Sub
  simp only [Time.sub_raw_exact t u hlo hfit, Time.add_nanos_diff t u ht hu hpos,
    Time.equal_self, if_true]

theorem Time.nanos_lt_of_after {t u : Time} (ht : t.Representable) (hu : u.Representable)
    (h : t.After u = true) : u.nanos < t.nanos := by
  obtain ⟨-, -, ht3, ht4⟩ := ht
  obtain ⟨-, -, hu3, hu4⟩ := hu
  unfold Time.After at h
  simp only [Bool.or_eq_true, Bool.and_eq_true, decide_eq_true_eq] at h
  unfold Time.nanos
  omega

/-! ## Library facts: readiness -/

theorem ready_condition_of_isPodReady {pod : Pod} (h : IsPodReady pod = true) :
    ∃ ready, GetPodReadyCondition pod.Status = some ready ∧ ready.Status = ConditionTrue := by
  unfold IsPodReady IsPodReadyConditionTrue at h
  cases hc : GetPodReadyCondition pod.Status with
  | none => rw [hc] at h; exact absurd h (by simp)
  | some c =>
    rw [hc] at h
    exact ⟨c, rfl, by simpa using h⟩

/-! ## The callbacks, case by case -/

theorem addPod_discard {startTime : Time} {pod : Pod} (watchPods : WatchPods)
    (h : startTime.After pod.CreationTimestamp = true) :
    addPod startTime watchPods pod = some (watchPods, []) := by
  simp [addPod, h]

theorem addPod_pending {startTime : Time} {pod : Pod} (watchPods : WatchPods)
    (h : startTime.After pod.CreationTimestamp = false) (hnot : IsPodReady pod = false) :
    addPod startTime watchPods pod = some (insert pod.UID watchPods, []) := by
  simp [addPod, h, hnot]

theorem addPod_ready {startTime : Time} {pod : Pod} {ready : PodCondition}
    (watchPods : WatchPods)
    (h : startTime.After pod.CreationTimestamp = false) (hready : IsPodReady pod = true)
    (hc : GetPodReadyCondition pod.Status = some ready) :
    addPod startTime watchPods pod = some (watchPods,
      [{ name := pod.Name,
         duration := ready.LastTransitionTime.Sub pod.CreationTimestamp }]) := by
  simp [addPod, h, hready, hc]

theorem updatePod_emit {watchPods : WatchPods} {pod : Pod} {ready : PodCondition}
    (hmem : pod.UID ∈ watchPods) (hready : IsPodReady pod = true)
    (hc : GetPodReadyCondition pod.Status = some ready) :
    updatePod watchPods pod = some (watchPods.erase pod.UID,
      [{ name := pod.Name,
         duration := ready.LastTransitionTime.Sub pod.CreationTimestamp }]) := by
  simp [updatePod, hmem, hready, hc]

theorem updatePod_absent {watchPods : WatchPods} {pod : Pod} (h : pod.UID ∉ watchPods) :
    updatePod watchPods pod = some (watchPods, []) := by
  simp [updatePod, h]

theorem updatePod_notReady (watchPods : WatchPods) {pod : Pod}
    (h : IsPodReady pod = false) :
    updatePod watchPods pod = some (watchPods, []) := by
  simp [updatePod, h]

theorem deletePod_eq (watchPods : WatchPods) (pod : Pod) :
    deletePod watchPods pod = some (watchPods.erase pod.UID, []) := by
  unfold deletePod
  split_ifs with h
  · rfl
  · rw [Finset.erase_eq_of_not_mem h]

/-! ## Start-time filter -/

set_option maxRecDepth 8000 in
/-- C3 fails on the boundary: a snapshot created exactly at the start time is
not discarded by `addPod`.  Not ready, it enters the pending set; ready, it
produces a record. -/
theorem addPod_at_start_time_not_discarded :
    podE0.CreationTimestamp = start1000 ∧ podE1.CreationTimestamp = start1000 ∧
    addPod start1000 ∅ podE0 = some ({"e"}, []) ∧
    addPod start1000 ∅ podE1 = some (∅, [{ name := "E", duration := 2000000000 }]) := by
  decide

/-- C3, amended: for every snapshot whose creationTimestamp is strictly before
the observer start time, and for every pending set, `addPod` emits no record
and leaves the pending set unchanged, whether or not the snapshot is ready. -/
theorem addPod_before_start_discards (startTime : Time) (watchPods : WatchPods) (pod : Pod)
    (hbefore : pod.CreationTimestamp.Before startTime = true) :
    addPod startTime watchPods pod = some (watchPods, []) := by
  rw [Time.before_eq_after] at hbefore
  exact addPod_discard watchPods hbefore

/-- Instance B of the scenario: created before the start time and ready at
first sight, it is discarded. -/
theorem addPod_before_start_discards_witness :
    podB.CreationTimestamp.Before start1000 = true ∧ IsPodReady podB = true ∧
    addPod start1000 {"a"} podB = some ({"a"}, []) :=
  ⟨by decide, by decide, addPod_before_start_discards start1000 {"a"} podB (by decide)⟩

/-! ## Race resolution -/

set_option maxRecDepth 8000 in
/-- C5 fails in the duration: instance F is created after the start time and is
already ready, its ready condition stamped 10^19 ns after its creation, yet the
record `addPod` emits holds 2^63 - 1 ns. -/
theorem addPod_ready_duration_not_the_difference :
    podF.CreationTimestamp.After start1000 = true ∧
    IsPodReady podF = true ∧
    GetPodReadyCondition podF.Status = some (readyAt ⟨t1000 + 5 + 10000000000, 0⟩) ∧
    (readyAt ⟨t1000 + 5 + 10000000000, 0⟩).LastTransitionTime.nanos
      - podF.CreationTimestamp.nanos = 10000000000000000000 ∧
    addPod start1000 {"c"} podF
      = some ({"c"}, [{ name := "F", duration := 9223372036854775807 }]) := by
  decide

/-- C5, amended: for every snapshot created after the start time that is
already ready, `addPod` emits exactly one record, holding the snapshot's name,
and the pending set after the call is the one before it; the record's duration
is the exact difference in nanoseconds of the ready condition's
lastTransitionTime and the creationTimestamp whenever both timestamps are
representable and that difference lies between 0 and `maxDuration`
(2^63 - 1 ns). -/
theorem addPod_ready_emits_exact_without_tracking (startTime : Time)
    (watchPods : WatchPods) (pod : Pod) (ready : PodCondition)
    (hafter : pod.CreationTimestamp.After startTime = true)
    (hready : IsPodReady pod = true)
    (hc : GetPodReadyCondition pod.Status = some ready) :
    ∃ d : Int,
      addPod startTime watchPods pod
        = some (watchPods, [{ name := pod.Name, duration := d }]) ∧
      (pod.CreationTimestamp.Representable ∧ ready.LastTransitionTime.Representable ∧
        0 ≤ ready.LastTransitionTime.nanos - pod.CreationTimestamp.nanos ∧
        ready.LastTransitionTime.nanos - pod.CreationTimestamp.nanos ≤ maxDuration →
        d = ready.LastTransitionTime.nanos - pod.CreationTimestamp.nanos) := by
  refine ⟨ready.LastTransitionTime.Sub pod.CreationTimestamp,
    addPod_ready watchPods (Time.after_asymm hafter) hready hc, ?_⟩
  rintro ⟨h0, h1, hpos, hfit⟩
  exact Time.sub_exact _ _ h1 h0 hpos hfit

set_option maxRecDepth 8000 in
/-- Instance A of the scenario, ready at first sight while C is pending: one
record of 3 s, C still pending and A not tracked. -/
theorem addPod_ready_emits_exact_without_tracking_witness :
    addPod start1000 {"c"} podA1
      = some ({"c"},
          [{ name := podA1.Name,
             duration := (readyAt ⟨t1000 + 8, 0⟩).LastTransitionTime.nanos
               - podA1.CreationTimestamp.nanos }]) ∧
    (readyAt ⟨t1000 + 8, 0⟩).LastTransitionTime.nanos - podA1.CreationTimestamp.nanos
      = 3000000000 :=
  let ⟨_, hrun, hexact⟩ :=
    addPod_ready_emits_exact_without_tracking start1000 {"c"} podA1 (readyAt ⟨t1000 + 8, 0⟩)
      (by decide) (by decide) (by decide)
  ⟨by rw [hrun, hexact ⟨by decide, by decide, by decide, by decide⟩], by decide⟩

/-! ## Duration -/

set_option maxRecDepth 8000 in
/-- C7 fails for distant timestamps: with the ready transition 10000000000
seconds after creation, the exact difference is 10^19 ns, but both callbacks
report `maxDuration` (2^63 - 1 ns). -/
theorem duration_saturates_beyond_maxDuration :
    GetPodReadyCondition podF.Status = some (readyAt ⟨t1000 + 5 + 10000000000, 0⟩) ∧
    (readyAt ⟨t1000 + 5 + 10000000000, 0⟩).LastTransitionTime.After podF.CreationTimestamp
      = true ∧
    (readyAt ⟨t1000 + 5 + 10000000000, 0⟩).LastTransitionTime.nanos
      - podF.CreationTimestamp.nanos = 10000000000000000000 ∧
    addPod start1000 ∅ podF = some (∅, [{ name := "F", duration := 9223372036854775807 }]) ∧
    updatePod {"f"} podF = some (∅, [{ name := "F", duration := 9223372036854775807 }]) := by
  decide

/-- C7, amended: for every representable creationTimestamp T0 and ready
lastTransitionTime T1 with T1 after T0 and T1 - T0 at most `maxDuration`
(2^63 - 1 nanoseconds), the duration in the record emitted by `addPod` (when
the snapshot passes the start-time filter) and by `updatePod` (when the id is
pending) equals T1 - T0 exactly. -/
theorem emitted_duration_exact (startTime : Time) (watchPods : WatchPods) (pod : Pod)
    (ready : PodCondition)
    (hc : GetPodReadyCondition pod.Status = some ready)
    (hready : IsPodReady pod = true)
    (h0 : pod.CreationTimestamp.Representable)
    (h1 : ready.LastTransitionTime.Representable)
    (hgt : ready.LastTransitionTime.After pod.CreationTimestamp = true)
    (hfit : ready.LastTransitionTime.nanos - pod.CreationTimestamp.nanos ≤ maxDuration) :
    (startTime.After pod.CreationTimestamp = false →
      addPod startTime watchPods pod = some (watchPods,
        [{ name := pod.Name,
           duration := ready.LastTransitionTime.nanos - pod.CreationTimestamp.nanos }])) ∧
    (pod.UID ∈ watchPods →
      updatePod watchPods pod = some (watchPods.erase pod.UID,
        [{ name := pod.Name,
           duration := ready.LastTransitionTime.nanos - pod.CreationTimestamp.nanos }])) := by
  have hpos : 0 ≤ ready.LastTransitionTime.nanos - pod.CreationTimestamp.nanos := by
    have := Time.nanos_lt_of_after h1 h0 hgt
    omega
  have hsub := Time.sub_exact _ _ h1 h0 hpos hfit
  constructor
  · intro hpass
    rw [addPod_ready watchPods hpass hready hc, hsub]
  · intro hmem
    rw [updatePod_emit hmem hready hc, hsub]

set_option maxRecDepth 8000 in
/-- Instance A of the scenario: ready 3 s after creation, recorded as 3 s by
both callbacks. -/
theorem emitted_duration_exact_witness :
    (readyAt ⟨t1000 + 8, 0⟩).LastTransitionTime.nanos - podA1.CreationTimestamp.nanos
      = 3000000000 ∧
    addPod start1000 {"a"} podA1 = some ({"a"},
      [{ name := podA1.Name,
         duration := (readyAt ⟨t1000 + 8, 0⟩).LastTransitionTime.nanos
           - podA1.CreationTimestamp.nanos }]) ∧
    updatePod {"a"} podA1 = some (({"a"} : WatchPods).erase podA1.UID,
      [{ name := podA1.Name,
         duration := (readyAt ⟨t1000 + 8, 0⟩).LastTransitionTime.nanos
           - podA1.CreationTimestamp.nanos }]) :=
  have h := emitted_duration_exact start1000 {"a"} podA1 (readyAt ⟨t1000 + 8, 0⟩)
    (by decide) (by decide) (by decide) (by decide) (by decide) (by decide)
  ⟨by decide, h.1 (by decide), h.2 (by decide)⟩

/-! ## Runs -/

theorem run_cons_of_dispatch {startTime : Time} {watchPods w : WatchPods} {e : Event}
    {out : List Record} {rest : List Event} {steps : List (WatchPods × List Record)}
    (hd : dispatch startTime watchPods e = some (w, out))
    (hr : run startTime w rest = some steps) :
    run startTime watchPods (e :: rest) = some ((w, out) :: steps) := by
  simp [run, hd, hr]

theorem emitted_cons (w : WatchPods) (out : List Record)
    (steps : List (WatchPods × List Record)) :
    emitted ((w, out) :: steps) = out ++ emitted steps := by
  simp [emitted]

theorem emitted_append (s t : List (WatchPods × List Record)) :
    emitted (s ++ t) = emitted s ++ emitted t := by
  simp [emitted]

theorem emitted_replicate_nil (n : Nat) (w : WatchPods) :
    emitted (List.replicate n (w, ([] : List Record))) = [] := by
  induction n with
  | zero => rfl
  | succ n ih => rw [List.replicate_succ, emitted_cons, ih]; rfl

/-- Updates that are all not ready change nothing. -/
theorem run_updates_notReady (startTime : Time) (w : WatchPods) (ups : List Pod)
    (hnot : ∀ u ∈ ups, IsPodReady u = false) :
    run startTime w (ups.map Event.UpdateFunc) = some (List.replicate ups.length (w, [])) := by
  induction ups with
  | nil => rfl
  | cons u ups ih =>
    have hu : IsPodReady u = false := hnot u (List.mem_cons_self _ _)
    have hrest := ih (fun q hq => hnot q (List.mem_cons_of_mem _ hq))
    exact run_cons_of_dispatch (updatePod_notReady w hu) hrest

/-- Updates for an id that is not pending change nothing. -/
theorem run_updates_absent (startTime : Time) (w : WatchPods) (X : UID) (ups : List Pod)
    (hX : X ∉ w) (hid : ∀ u ∈ ups, u.UID = X) :
    run startTime w (ups.map Event.UpdateFunc) = some (List.replicate ups.length (w, [])) := by
  induction ups with
  | nil => rfl
  | cons u ups ih =>
    have hu : u.UID ∉ w := by rw [hid u (List.mem_cons_self _ _)]; exact hX
    have hrest := ih (fun q hq => hid q (List.mem_cons_of_mem _ hq))
    exact run_cons_of_dispatch (updatePod_absent hu) hrest

/-- Updates for a pending id: nothing happens up to the first ready snapshot,
which is recorded and clears the id; nothing happens afterwards. -/
theorem run_updates_first_ready (startTime : Time) (w : WatchPods) (X : UID)
    (pre post : List Pod) (u : Pod) (ready : PodCondition)
    (hX : X ∈ w) (hpre : ∀ q ∈ pre, IsPodReady q = false)
    (hu : u.UID = X) (hready : IsPodReady u = true)
    (hc : GetPodReadyCondition u.Status = some ready)
    (hpost : ∀ q ∈ post, q.UID = X) :
    run startTime w ((pre ++ u :: post).map Event.UpdateFunc) =
      some (List.replicate pre.length (w, []) ++
        (w.erase X,
          [{ name := u.Name,
             duration := ready.LastTransitionTime.Sub u.CreationTimestamp }]) ::
          List.replicate post.length (w.erase X, [])) := by
  induction pre with
  | nil =>
    have hmem : u.UID ∈ w := by rw [hu]; exact hX
    have hd := updatePod_emit hmem hready hc
    rw [hu] at hd
    have hrest := run_updates_absent startTime (w.erase X) X post
      (Finset.not_mem_erase X w) hpost
    exact run_cons_of_dispatch hd hrest
  | cons q pre ih =>
    have hq : IsPodReady q = false := hpre q (List.mem_cons_self _ _)
    have hrest := ih (fun r hr => hpre r (List.mem_cons_of_mem _ hr))
    exact run_cons_of_dispatch (updatePod_notReady w hq) hrest

/-- Either no element satisfies `f`, or the list splits at the first one that does. -/
theorem first_true_split {α : Type} (f : α → Bool) (l : List α) :
    (∀ q ∈ l, f q = false) ∨
    ∃ pre u post, l = pre ++ u :: post ∧ (∀ q ∈ pre, f q = false) ∧ f u = true := by
  induction l with
  | nil => left; intro q hq; cases hq
  | cons a l ih =>
    by_cases ha : f a = true
    · right; exact ⟨[], a, l, rfl, fun q hq => (by cases hq), ha⟩
    · have ha' : f a = false := by simpa using ha
      rcases ih with hall | ⟨pre, u, post, hl, hpre, hu⟩
      · left
        intro q hq
        rcases List.mem_cons.mp hq with rfl | hq
        · exact ha'
        · exact hall q hq
      · right
        refine ⟨a :: pre, u, post, by rw [hl]; rfl, ?_, hu⟩
        intro q hq
        rcases List.mem_cons.mp hq with rfl | hq
        · exact ha'
        · exact hpre q hq

/-! ## Pending, then ready -/

/-- C1: from every pending set (so also one that does not hold the id), one
Observed event with a not-ready snapshot created after the start time followed
by any Updated events for that id emits one record if some Updated snapshot is
ready and none otherwise; the record is emitted while handling the first ready
Updated snapshot, holds that snapshot's name and the difference (Go `Time.Sub`)
of its ready lastTransitionTime and its creationTimestamp, and the id is absent
from the pending set after that event and after every later one. -/
theorem pending_then_ready_emits_once (startTime : Time) (watchPods : WatchPods)
    (pod : Pod) (updates : List Pod)
    (hnot : IsPodReady pod = false)
    (hafter : pod.CreationTimestamp.After startTime = true)
    (hid : ∀ u ∈ updates, u.UID = pod.UID) :
    ∃ steps,
      run startTime watchPods (Event.AddFunc pod :: updates.map Event.UpdateFunc)
        = some steps ∧
      (emitted steps).length = (if updates.any IsPodReady then 1 else 0) ∧
      ∀ pre u post, updates = pre ++ u :: post →
        (∀ q ∈ pre, IsPodReady q = false) → IsPodReady u = true →
        ∃ ready, GetPodReadyCondition u.Status = some ready ∧
          steps.map Prod.snd =
            List.replicate (pre.length + 1) [] ++
              [{ name := u.Name,
                 duration := ready.LastTransitionTime.Sub u.CreationTimestamp }] ::
                List.replicate post.length [] ∧
          ∀ s ∈ steps.drop (pre.length + 1), pod.UID ∉ s.1 := by
  have hadd := addPod_pending watchPods (Time.after_asymm hafter) hnot
  have hin : pod.UID ∈ insert pod.UID watchPods := Finset.mem_insert_self _ _
  -- the run, for any split at a first ready update
  have hsplit : ∀ pre u post, updates = pre ++ u :: post →
      (∀ q ∈ pre, IsPodReady q = false) → IsPodReady u = true →
      ∃ ready, GetPodReadyCondition u.Status = some ready ∧
        run startTime watchPods (Event.AddFunc pod :: updates.map Event.UpdateFunc) =
          some ((insert pod.UID watchPods, []) ::
            (List.replicate pre.length (insert pod.UID watchPods, []) ++
              ((insert pod.UID watchPods).erase pod.UID,
                [{ name := u.Name,
                   duration := ready.LastTransitionTime.Sub u.CreationTimestamp }]) ::
              List.replicate post.length ((insert pod.UID watchPods).erase pod.UID, []))) := by
    intro pre u post hl hpre hu
    obtain ⟨ready, hc, -⟩ := ready_condition_of_isPodReady hu
    refine ⟨ready, hc, ?_⟩
    have huid : u.UID = pod.UID := hid u (by rw [hl]; simp)
    have hpost : ∀ q ∈ post, q.UID = pod.UID := fun q hq => hid q (by rw [hl]; simp [hq])
    have hrest := run_updates_first_ready startTime (insert pod.UID watchPods) pod.UID
      pre post u ready hin hpre huid hu hc hpost
    rw [← hl] at hrest
    exact run_cons_of_dispatch hadd hrest
  -- what the explicit run shows
  have hfacts : ∀ (pre post : List Pod) (r : Record)
      (steps : List (WatchPods × List Record)),
      steps = (insert pod.UID watchPods, []) ::
            (List.replicate pre.length (insert pod.UID watchPods, []) ++
              ((insert pod.UID watchPods).erase pod.UID, [r]) ::
              List.replicate post.length ((insert pod.UID watchPods).erase pod.UID, [])) →
      (emitted steps).length = 1 ∧
      steps.map Prod.snd = List.replicate (pre.length + 1) [] ++ [r] ::
        List.replicate post.length [] ∧
      ∀ s ∈ steps.drop (pre.length + 1), pod.UID ∉ s.1 := by
    intro pre post r steps hs
    subst hs
    refine ⟨?_, ?_, ?_⟩
    · rw [emitted_cons, emitted_append, emitted_replicate_nil, emitted_cons,
        emitted_replicate_nil]
      rfl
    · simp [List.replicate_succ, List.map_replicate]
    · intro s hs
      rw [List.drop_succ_cons, List.drop_left' (List.length_replicate _ _)] at hs
      rcases List.mem_cons.mp hs with rfl | hs
      · exact Finset.not_mem_erase _ _
      · rw [List.eq_of_mem_replicate hs]
        exact Finset.not_mem_erase _ _
  rcases first_true_split IsPodReady updates with hall | ⟨pre0, u0, post0, hl0, hpre0, hu0⟩
  · refine ⟨_, run_cons_of_dispatch hadd (run_updates_notReady startTime _ updates hall), ?_, ?_⟩
    · have hany : updates.any IsPodReady = false := by
        rw [List.any_eq_false]
        intro q hq
        simp [hall q hq]
      rw [emitted_cons, emitted_replicate_nil, hany]
      rfl
    · intro pre u post hl _ hu
      have hmem : u ∈ updates := by rw [hl]; simp
      rw [hall u hmem] at hu
      exact absurd hu (by simp)
  · obtain ⟨ready0, _, hrun0⟩ := hsplit pre0 u0 post0 hl0 hpre0 hu0
    refine ⟨_, hrun0, ?_, ?_⟩
    · have hany : updates.any IsPodReady = true := by
        rw [List.any_eq_true]
        exact ⟨u0, by rw [hl0]; simp, hu0⟩
      rw [hany]
      exact (hfacts pre0 post0 _ _ rfl).1
    · intro pre u post hl hpre hu
      obtain ⟨ready, hc, hrun⟩ := hsplit pre u post hl hpre hu
      refine ⟨ready, hc, ?_⟩
      have heq := Option.some.inj (hrun0.symm.trans hrun)
      exact (hfacts pre post _ _ heq).2

set_option maxRecDepth 8000 in
/-- Instance A of the scenario with a flapping ready condition: one record, at
the first ready update. -/
theorem pending_then_ready_emits_once_witness :
    ∃ steps,
      run start1000 ∅
        (Event.AddFunc podA0 :: [podA0, podA1, podA0, podA1].map Event.UpdateFunc)
        = some steps ∧
      (emitted steps).length = 1 ∧
      steps.map Prod.snd = [[], [], [{ name := "A", duration := 3000000000 }], [], []] :=
  let ⟨steps, hrun, hlen, _⟩ :=
    pending_then_ready_emits_once start1000 ∅ podA0 [podA0, podA1, podA0, podA1]
      (by decide) (by decide) (by decide)
  ⟨steps, hrun, hlen.trans (by decide), by
    have h : run start1000 ∅
        (Event.AddFunc podA0 :: [podA0, podA1, podA0, podA1].map Event.UpdateFunc)
        = some [({"a"}, []), ({"a"}, []), (∅, [{ name := "A", duration := 3000000000 }]),
            (∅, []), (∅, [])] := by decide
    rw [Option.some.inj (hrun.symm.trans h)]
    rfl⟩

/-! ## Runs in two phases -/

theorem finalPods_cons (w w1 : WatchPods) (out : List Record)
    (steps : List (WatchPods × List Record)) :
    finalPods w ((w1, out) :: steps) = finalPods w1 steps := by
  unfold finalPods
  rw [List.getLast?_cons]
  cases steps.getLast? <;> rfl

theorem run_append {startTime : Time} (a b : List Event) :
    ∀ (w : WatchPods) (s1 s2 : List (WatchPods × List Record)),
      run startTime w a = some s1 → run startTime (finalPods w s1) b = some s2 →
      run startTime w (a ++ b) = some (s1 ++ s2) := by
  induction a with
  | nil =>
    intro w s1 s2 h1 h2
    have : s1 = [] := by simpa [run] using h1.symm
    subst this
    simpa using h2
  | cons e a ih =>
    intro w s1 s2 h1 h2
    cases hd : dispatch startTime w e with
    | none => simp [run, hd] at h1
    | some r =>
      obtain ⟨w1, out⟩ := r
      cases hr : run startTime w1 a with
      | none => simp [run, hd, hr] at h1
      | some t =>
        have hs1 : s1 = (w1, out) :: t := by simpa [run, hd, hr] using h1.symm
        subst hs1
        rw [finalPods_cons] at h2
        exact run_cons_of_dispatch hd (ih w1 t s2 hr h2)

/-- Not-ready Observed and Updated snapshots of one id that pass the filter
emit nothing; the id is pending afterwards when one of them was Observed. -/
theorem run_notReady_phase (startTime : Time) (X : UID) (before : List Event)
    (hb : ∀ e ∈ before, e.isDelete = false ∧ e.pod.UID = X ∧
      startTime.After e.pod.CreationTimestamp = false ∧ IsPodReady e.pod = false) :
    ∀ w : WatchPods, ∃ s1, run startTime w before = some s1 ∧ emitted s1 = [] ∧
      finalPods w s1 = if before.any Event.isAdd then insert X w else w := by
  induction before with
  | nil => intro w; exact ⟨[], rfl, rfl, rfl⟩
  | cons e rest ih =>
    intro w
    obtain ⟨hdel, hid, hpass, hnot⟩ := hb e (List.mem_cons_self _ _)
    have ih' := ih (fun q hq => hb q (List.mem_cons_of_mem _ hq))
    cases e with
    | AddFunc p =>
      simp only [Event.pod] at hid hpass hnot
      obtain ⟨s, hs, hem, hfin⟩ := ih' (insert X w)
      have hd : dispatch startTime w (Event.AddFunc p) = some (insert X w, []) := by
        have := addPod_pending w hpass hnot
        rw [hid] at this
        exact this
      refine ⟨_, run_cons_of_dispatch hd hs, ?_, ?_⟩
      · rw [emitted_cons, hem]; rfl
      · rw [finalPods_cons, hfin]
        simp [Event.isAdd]
    | UpdateFunc p =>
      simp only [Event.pod] at hid hpass hnot
      obtain ⟨s, hs, hem, hfin⟩ := ih' w
      have hd : dispatch startTime w (Event.UpdateFunc p) = some (w, []) :=
        updatePod_notReady w hnot
      refine ⟨_, run_cons_of_dispatch hd hs, ?_, ?_⟩
      · rw [emitted_cons, hem]; rfl
      · rw [finalPods_cons, hfin]
        simp [Event.isAdd]
    | DeleteFunc p => simp [Event.isDelete] at hdel

/-- Ready Observed and Updated snapshots of one id that pass the filter: every
Observed one is recorded, and so is the first Updated one when the id is
pending. -/
theorem run_ready_phase (startTime : Time) (X : UID) (after : List Event)
    (ha : ∀ e ∈ after, e.isDelete = false ∧ e.pod.UID = X ∧
      startTime.After e.pod.CreationTimestamp = false ∧ IsPodReady e.pod = true) :
    ∀ w : WatchPods, ∃ s2, run startTime w after = some s2 ∧
      (emitted s2).length = (after.filter Event.isAdd).length +
        (if decide (X ∈ w) && after.any Event.isUpdate then 1 else 0) := by
  induction after with
  | nil => intro w; exact ⟨[], rfl, by simp [emitted]⟩
  | cons e rest ih =>
    intro w
    obtain ⟨hdel, hid, hpass, hready⟩ := ha e (List.mem_cons_self _ _)
    have ih' := ih (fun q hq => ha q (List.mem_cons_of_mem _ hq))
    obtain ⟨ready, hc, -⟩ := ready_condition_of_isPodReady hready
    cases e with
    | AddFunc p =>
      simp only [Event.pod] at hid hpass hready hc
      obtain ⟨s, hs, hlen⟩ := ih' w
      have hd : dispatch startTime w (Event.AddFunc p) = some (w,
          [{ name := p.Name,
             duration := ready.LastTransitionTime.Sub p.CreationTimestamp }]) :=
        addPod_ready w hpass hready hc
      refine ⟨_, run_cons_of_dispatch hd hs, ?_⟩
      rw [emitted_cons, List.length_append, hlen]
      simp [Event.isAdd, Event.isUpdate]
      omega
    | UpdateFunc p =>
      simp only [Event.pod] at hid hpass hready hc
      by_cases hX : X ∈ w
      · obtain ⟨s, hs, hlen⟩ := ih' (w.erase X)
        have hd : dispatch startTime w (Event.UpdateFunc p) = some (w.erase X,
            [{ name := p.Name,
               duration := ready.LastTransitionTime.Sub p.CreationTimestamp }]) := by
          have := updatePod_emit (show p.UID ∈ w by rw [hid]; exact hX) hready hc
          rw [hid] at this
          exact this
        refine ⟨_, run_cons_of_dispatch hd hs, ?_⟩
        rw [emitted_cons, List.length_append, hlen]
        simp [Event.isAdd, Event.isUpdate, hX]
        omega
      · obtain ⟨s, hs, hlen⟩ := ih' w
        have hd : dispatch startTime w (Event.UpdateFunc p) = some (w, []) :=
          updatePod_absent (show p.UID ∉ w by rw [hid]; exact hX)
        refine ⟨_, run_cons_of_dispatch hd hs, ?_⟩
        rw [emitted_cons, List.length_append, hlen]
        simp [Event.isAdd, Event.isUpdate, hX]
    | DeleteFunc p => simp [Event.isDelete] at hdel

/-! ## Exactly-once emission -/

set_option maxRecDepth 8000 in
/-- C2 fails as stated.  With the snapshots of one id going from not-ready to
ready once: when no snapshot before the transition is Observed, no record is
emitted; when a ready snapshot is Observed while the id is pending and an
Updated one follows, two records are emitted. -/
theorem exactly_once_needs_observed_first_and_updated_ready :
    ([Event.UpdateFunc podA0, Event.UpdateFunc podA1].map
        (fun e => (e.pod.UID, e.pod.CreationTimestamp, IsPodReady e.pod))
      = [("a", ⟨t1000 + 5, 0⟩, false), ("a", ⟨t1000 + 5, 0⟩, true)]) ∧
    (run start1000 ∅ [Event.UpdateFunc podA0, Event.UpdateFunc podA1]).map
        (fun s => (emitted s).length) = some 0 ∧
    ([Event.AddFunc podA0, Event.AddFunc podA1, Event.UpdateFunc podA1].map
        (fun e => (e.pod.UID, e.pod.CreationTimestamp, IsPodReady e.pod))
      = [("a", ⟨t1000 + 5, 0⟩, false), ("a", ⟨t1000 + 5, 0⟩, true),
         ("a", ⟨t1000 + 5, 0⟩, true)]) ∧
    (run start1000 ∅ [Event.AddFunc podA0, Event.AddFunc podA1, Event.UpdateFunc podA1]).map
        (fun s => (emitted s).length) = some 2 := by
  decide

/-- C2, amended: starting from an empty pending set, for every finite sequence
of Observed and Updated events that all carry the same id and the same
creationTimestamp (after the start time), made of some not-ready snapshots
followed by only ready snapshots, the number of records emitted is the number
of ready snapshots that are Observed, plus one if some not-ready snapshot is
Observed and some ready snapshot is Updated.  It is exactly one when at least
one not-ready snapshot is Observed and every ready snapshot is Updated, however
many events come before or after the transition. -/
theorem exactly_once_emission (startTime : Time) (X : UID) (T0 : Time)
    (before after : List Event)
    (hT0 : T0.After startTime = true)
    (hb : ∀ e ∈ before, e.isDelete = false ∧ e.pod.UID = X ∧
      e.pod.CreationTimestamp = T0 ∧ IsPodReady e.pod = false)
    (ha : ∀ e ∈ after, e.isDelete = false ∧ e.pod.UID = X ∧
      e.pod.CreationTimestamp = T0 ∧ IsPodReady e.pod = true)
    (ha0 : after ≠ []) :
    ∃ steps, run startTime ∅ (before ++ after) = some steps ∧
      (emitted steps).length = (after.filter Event.isAdd).length +
        (if before.any Event.isAdd && after.any Event.isUpdate then 1 else 0) ∧
      (before.any Event.isAdd = true → after.all Event.isUpdate = true →
        (emitted steps).length = 1) := by
  have hpass := Time.after_asymm hT0
  have hb' : ∀ e ∈ before, e.isDelete = false ∧ e.pod.UID = X ∧
      startTime.After e.pod.CreationTimestamp = false ∧ IsPodReady e.pod = false := by
    intro e he
    obtain ⟨h1, h2, h3, h4⟩ := hb e he
    exact ⟨h1, h2, by rw [h3]; exact hpass, h4⟩
  have ha' : ∀ e ∈ after, e.isDelete = false ∧ e.pod.UID = X ∧
      startTime.After e.pod.CreationTimestamp = false ∧ IsPodReady e.pod = true := by
    intro e he
    obtain ⟨h1, h2, h3, h4⟩ := ha e he
    exact ⟨h1, h2, by rw [h3]; exact hpass, h4⟩
  obtain ⟨s1, hs1, hem1, hfin1⟩ := run_notReady_phase startTime X before hb' ∅
  obtain ⟨s2, hs2, hlen2⟩ := run_ready_phase startTime X after ha' (finalPods ∅ s1)
  have hcount : (emitted (s1 ++ s2)).length = (after.filter Event.isAdd).length +
      (if before.any Event.isAdd && after.any Event.isUpdate then 1 else 0) := by
    rw [emitted_append, hem1, List.nil_append, hlen2, hfin1]
    cases hany : before.any Event.isAdd <;> simp
  refine ⟨s1 ++ s2, run_append before after ∅ s1 s2 hs1 hs2, hcount, ?_⟩
  intro hobs hupd
  rw [hcount, hobs]
  have hnoadd : after.filter Event.isAdd = [] := by
    rw [List.filter_eq_nil_iff]
    intro e he
    have h1 := List.all_eq_true.mp hupd e he
    cases e <;> simp_all [Event.isAdd, Event.isUpdate]
  have hsome : after.any Event.isUpdate = true := by
    cases after with
    | nil => exact absurd rfl ha0
    | cons e rest =>
      have h1 := List.all_eq_true.mp hupd e (List.mem_cons_self _ _)
      simp [h1]
  rw [hnoadd, hsome]
  rfl

set_option maxRecDepth 8000 in
/-- Instance A of the scenario, first seen through an update, then observed,
then ready in two updates: one record. -/
theorem exactly_once_emission_witness :
    ∃ steps,
      run start1000 ∅
        ([Event.UpdateFunc podA0, Event.AddFunc podA0, Event.UpdateFunc podA0] ++
          [Event.UpdateFunc podA1, Event.UpdateFunc podA1]) = some steps ∧
      (emitted steps).length = 1 :=
  let ⟨steps, hrun, _, hone⟩ :=
    exactly_once_emission start1000 "a" ⟨t1000 + 5, 0⟩
      [Event.UpdateFunc podA0, Event.AddFunc podA0, Event.UpdateFunc podA0]
      [Event.UpdateFunc podA1, Event.UpdateFunc podA1]
      (by decide) (by decide) (by decide) (by decide)
  ⟨steps, hrun, hone (by decide) (by decide)⟩

/-! ## One step, for every event -/

/-- No callback aborts; the pending set after an event holds the ids that the
event enters or that were pending and are not cleared by it; only a ready
snapshot emits, through `addPod` when it passes the start-time filter and
through `updatePod` when its id is pending. -/
theorem dispatch_step (startTime : Time) (w : WatchPods) (e : Event) :
    ∃ w1 out, dispatch startTime w e = some (w1, out) ∧
      (∀ X, X ∈ w1 ↔
        (e.entersPending startTime X = true ∨ (X ∈ w ∧ e.clearsPending X = false))) ∧
      (out ≠ [] → IsPodReady e.pod = true ∧
        ((e.isAdd = true ∧ startTime.After e.pod.CreationTimestamp = false) ∨
         (e.isUpdate = true ∧ e.pod.UID ∈ w))) := by
  cases e with
  | AddFunc p =>
    by_cases hold : startTime.After p.CreationTimestamp = true
    · refine ⟨w, [], addPod_discard w hold, ?_, fun h => absurd rfl h⟩
      intro X
      simp [Event.entersPending, Event.clearsPending, hold]
    · have hpass : startTime.After p.CreationTimestamp = false := by simpa using hold
      by_cases hready : IsPodReady p = true
      · obtain ⟨ready, hc, -⟩ := ready_condition_of_isPodReady hready
        refine ⟨w, _, addPod_ready w hpass hready hc, ?_, fun _ => ⟨hready, Or.inl ⟨rfl, hpass⟩⟩⟩
        intro X
        simp [Event.entersPending, Event.clearsPending, hready]
      · have hnot : IsPodReady p = false := by simpa using hready
        refine ⟨insert p.UID w, [], addPod_pending w hpass hnot, ?_, fun h => absurd rfl h⟩
        intro X
        simp [Event.entersPending, Event.clearsPending, hpass, hnot, Finset.mem_insert,
          eq_comm]
  | UpdateFunc p =>
    by_cases hready : IsPodReady p = true
    · by_cases hmem : p.UID ∈ w
      · obtain ⟨ready, hc, -⟩ := ready_condition_of_isPodReady hready
        refine ⟨w.erase p.UID, _, updatePod_emit hmem hready hc, ?_,
          fun _ => ⟨hready, Or.inr ⟨rfl, hmem⟩⟩⟩
        intro X
        simp [Event.entersPending, Event.clearsPending, hready, Finset.mem_erase, eq_comm,
          and_comm]
      · refine ⟨w, [], updatePod_absent hmem, ?_, fun h => absurd rfl h⟩
        intro X
        simp only [Event.entersPending, Event.clearsPending, hready, Bool.and_true,
          decide_eq_false_iff_not, false_or, Bool.false_eq_true]
        constructor
        · intro hX
          exact ⟨hX, fun h => hmem (h ▸ hX)⟩
        · exact fun h => h.1
    · have hnot : IsPodReady p = false := by simpa using hready
      refine ⟨w, [], updatePod_notReady w hnot, ?_, fun h => absurd rfl h⟩
      intro X
      simp [Event.entersPending, Event.clearsPending, hnot]
  | DeleteFunc p =>
    refine ⟨w.erase p.UID, [], deletePod_eq w p, ?_, fun h => absurd rfl h⟩
    intro X
    simp [Event.entersPending, Event.clearsPending, Finset.mem_erase, eq_comm, and_comm]

/-- While no Observed snapshot of `X` passes the start-time filter, `X` stays
out of the pending set and the events carrying `X` emit nothing. -/
theorem run_stays_absent (startTime : Time) (X : UID) (events : List Event)
    (hno : ∀ e ∈ events, e.isAdd = true → e.pod.UID = X →
      startTime.After e.pod.CreationTimestamp = true) :
    ∀ w : WatchPods, X ∉ w →
      ∃ steps, run startTime w events = some steps ∧ steps.length = events.length ∧
        ∀ es ∈ List.zip events steps, X ∉ es.2.1 ∧ (es.1.pod.UID = X → es.2.2 = []) := by
  induction events with
  | nil => intro w _; exact ⟨[], rfl, rfl, fun es hes => by simp at hes⟩
  | cons e rest ih =>
    intro w hw
    obtain ⟨w1, out, hd, hmem, hout⟩ := dispatch_step startTime w e
    have he := hno e (List.mem_cons_self _ _)
    have hw1 : X ∉ w1 := by
      rw [hmem X]
      rintro (h | h)
      · cases e with
        | AddFunc p =>
          simp only [Event.entersPending, Bool.and_eq_true, decide_eq_true_eq,
            Bool.not_eq_true'] at h
          have := he rfl h.1.1
          simp only [Event.pod] at this
          rw [this] at h
          exact absurd h.1.2 (by simp)
        | UpdateFunc p => simp [Event.entersPending] at h
        | DeleteFunc p => simp [Event.entersPending] at h
      · exact hw h.1
    have hquiet : e.pod.UID = X → out = [] := by
      intro hid
      by_contra hne
      obtain ⟨_, h | h⟩ := hout hne
      · have := he h.1 hid
        rw [h.2] at this
        exact absurd this (by simp)
      · rw [hid] at h
        exact hw h.2
    obtain ⟨steps, hs, hlen, hall⟩ :=
      ih (fun q hq => hno q (List.mem_cons_of_mem _ hq)) w1 hw1
    refine ⟨(w1, out) :: steps, run_cons_of_dispatch hd hs, by simp [hlen], ?_⟩
    intro es hes
    rw [List.zip_cons_cons] at hes
    rcases List.mem_cons.mp hes with rfl | hes
    · exact ⟨hw1, hquiet⟩
    · exact hall es hes

/-! ## Pre-existing instances -/

/-- C4: starting from an empty pending set, for every finite sequence of
Observed, Updated and Removed events over any ids, if every snapshot carrying
id X has a creationTimestamp strictly earlier than the start time, then no
event carrying X emits a record and X is in the pending set after no event,
even when X's snapshots are ready in Updated events. -/
theorem preexisting_ignored (startTime : Time) (X : UID) (events : List Event)
    (hold : ∀ e ∈ events, e.pod.UID = X →
      e.pod.CreationTimestamp.Before startTime = true) :
    ∃ steps, run startTime ∅ events = some steps ∧ steps.length = events.length ∧
      ∀ es ∈ List.zip events steps, X ∉ es.2.1 ∧ (es.1.pod.UID = X → es.2.2 = []) := by
  apply run_stays_absent startTime X events _ ∅ (Finset.not_mem_empty X)
  intro e he _ hid
  rw [← Time.before_eq_after]
  exact hold e he hid

set_option maxRecDepth 8000 in
/-- Instance B of the scenario interleaved with instance A. -/
theorem preexisting_ignored_witness :
    ∃ steps,
      run start1000 ∅ [Event.AddFunc podB, Event.AddFunc podA0, Event.UpdateFunc podB,
        Event.UpdateFunc podA1, Event.DeleteFunc podB] = some steps ∧
      steps.length = 5 ∧
      ∀ es ∈ List.zip [Event.AddFunc podB, Event.AddFunc podA0, Event.UpdateFunc podB,
          Event.UpdateFunc podA1, Event.DeleteFunc podB] steps,
        "b" ∉ es.2.1 ∧ (es.1.pod.UID = "b" → es.2.2 = []) :=
  preexisting_ignored start1000 "b" [Event.AddFunc podB, Event.AddFunc podA0,
    Event.UpdateFunc podB, Event.UpdateFunc podA1, Event.DeleteFunc podB] (by decide)

/-! ## Removal before readiness -/

/-- C6: an id that entered the pending set through `addPod` (not-ready
snapshot created after the start time) and then receives only not-ready Updated
events followed by a Removed event: none of these events emits a record, the id
is absent from the pending set after `deletePod`, and in every continuation
without a new Observed event for that id, no event carrying the id (Updated,
ready or not, in particular) emits anything. -/
theorem removal_suppresses_emission (startTime : Time) (watchPods : WatchPods)
    (pod removed : Pod) (updates : List Pod) (later : List Event)
    (hnot : IsPodReady pod = false)
    (hafter : pod.CreationTimestamp.After startTime = true)
    (hups : ∀ u ∈ updates, u.UID = pod.UID ∧ IsPodReady u = false)
    (hrem : removed.UID = pod.UID)
    (hlater : ∀ e ∈ later, e.isAdd = true → e.pod.UID ≠ pod.UID) :
    ∃ s1 s2,
      run startTime watchPods [Event.AddFunc pod] = some [(insert pod.UID watchPods, [])] ∧
      run startTime watchPods
        (Event.AddFunc pod :: (updates.map Event.UpdateFunc ++ [Event.DeleteFunc removed]))
        = some s1 ∧
      emitted s1 = [] ∧
      pod.UID ∉ finalPods watchPods s1 ∧
      run startTime watchPods
        (Event.AddFunc pod :: (updates.map Event.UpdateFunc ++ [Event.DeleteFunc removed])
          ++ later) = some (s1 ++ s2) ∧
      s2.length = later.length ∧
      ∀ es ∈ List.zip later s2, es.1.pod.UID = pod.UID → es.2.2 = [] := by
  have hadd := addPod_pending watchPods (Time.after_asymm hafter) hnot
  have hupd := run_updates_notReady startTime (insert pod.UID watchPods) updates
    (fun u hu => (hups u hu).2)
  have hdel : run startTime (insert pod.UID watchPods) [Event.DeleteFunc removed] =
      some [((insert pod.UID watchPods).erase pod.UID, [])] := by
    have := deletePod_eq (insert pod.UID watchPods) removed
    rw [hrem] at this
    exact run_cons_of_dispatch this rfl
  have hfinU : finalPods (insert pod.UID watchPods)
      (List.replicate updates.length (insert pod.UID watchPods, ([] : List Record)))
      = insert pod.UID watchPods := by
    generalize updates.length = n
    induction n with
    | zero => rfl
    | succ n ih => rw [List.replicate_succ, finalPods_cons, ih]
  have htail := run_append (updates.map Event.UpdateFunc) [Event.DeleteFunc removed]
    (insert pod.UID watchPods) _ _ hupd (by rw [hfinU]; exact hdel)
  have hs1 := run_cons_of_dispatch
    (show dispatch startTime watchPods (Event.AddFunc pod) = _ from hadd) htail
  have hfin1 : finalPods watchPods ((insert pod.UID watchPods, []) ::
      (List.replicate updates.length (insert pod.UID watchPods, ([] : List Record)) ++
        [((insert pod.UID watchPods).erase pod.UID, [])]))
      = (insert pod.UID watchPods).erase pod.UID := by
    unfold finalPods
    rw [← List.cons_append, List.getLast?_concat]
    rfl
  have habsent : pod.UID ∉ finalPods watchPods ((insert pod.UID watchPods, []) ::
      (List.replicate updates.length (insert pod.UID watchPods, ([] : List Record)) ++
        [((insert pod.UID watchPods).erase pod.UID, [])])) := by
    rw [hfin1]
    exact Finset.not_mem_erase _ _
  obtain ⟨s2, hs2, hlen2, hall2⟩ := run_stays_absent startTime pod.UID later
    (fun e he hadd' hid => absurd hid (hlater e he hadd')) _ habsent
  refine ⟨_, s2, run_cons_of_dispatch hadd rfl, hs1, ?_, habsent, ?_, hlen2, ?_⟩
  · rw [emitted_cons, emitted_append, emitted_replicate_nil, emitted_cons]
    rfl
  · exact run_append _ later watchPods _ s2 hs1 hs2
  · intro es hes
    exact (hall2 es hes).2

set_option maxRecDepth 8000 in
/-- Instance C of the scenario, followed by a late ready update of C and the
life of instance A. -/
theorem removal_suppresses_emission_witness :
    ∃ s1 s2,
      run start1000 ∅ [Event.AddFunc podC] = some [(insert podC.UID ∅, [])] ∧
      run start1000 ∅
        (Event.AddFunc podC :: ([podC, podC].map Event.UpdateFunc ++ [Event.DeleteFunc podC]))
        = some s1 ∧
      emitted s1 = [] ∧
      podC.UID ∉ finalPods ∅ s1 ∧
      run start1000 ∅
        (Event.AddFunc podC :: ([podC, podC].map Event.UpdateFunc ++ [Event.DeleteFunc podC])
          ++ [Event.UpdateFunc { podC with Status := ⟨[readyAt ⟨t1000 + 90, 0⟩]⟩ },
              Event.AddFunc podA0, Event.UpdateFunc podA1]) = some (s1 ++ s2) ∧
      s2.length = 3 ∧
      ∀ es ∈ List.zip [Event.UpdateFunc { podC with Status := ⟨[readyAt ⟨t1000 + 90, 0⟩]⟩ },
          Event.AddFunc podA0, Event.UpdateFunc podA1] s2,
        es.1.pod.UID = podC.UID → es.2.2 = [] :=
  removal_suppresses_emission start1000 ∅ podC podC [podC, podC]
    [Event.UpdateFunc { podC with Status := ⟨[readyAt ⟨t1000 + 90, 0⟩]⟩ },
      Event.AddFunc podA0, Event.UpdateFunc podA1]
    (by decide) (by decide) (by decide) (by decide) (by decide)

/-! ## Duplicate deliveries -/

/-- Updated events for one pending id emit at most one record. -/
theorem run_updates_pending_at_most_one (startTime : Time) (w : WatchPods) (X : UID)
    (ups : List Pod) (hX : X ∈ w) (hid : ∀ u ∈ ups, u.UID = X) :
    ∃ cont, run startTime w (ups.map Event.UpdateFunc) = some cont ∧
      (emitted cont).length ≤ 1 := by
  rcases first_true_split IsPodReady ups with hall | ⟨pre, u, post, hl, hpre, hu⟩
  · refine ⟨_, run_updates_notReady startTime w ups hall, ?_⟩
    rw [emitted_replicate_nil]
    exact Nat.zero_le _
  · obtain ⟨ready, hc, -⟩ := ready_condition_of_isPodReady hu
    have huid : u.UID = X := hid u (by rw [hl]; simp)
    have hpost : ∀ q ∈ post, q.UID = X := fun q hq => hid q (by rw [hl]; simp [hq])
    have hrun := run_updates_first_ready startTime w X pre post u ready hX hpre huid hu hc hpost
    rw [← hl] at hrun
    refine ⟨_, hrun, ?_⟩
    rw [emitted_append, emitted_replicate_nil, emitted_cons, emitted_replicate_nil]
    exact Nat.le_refl _

/-- C8: for every not-ready snapshot created after the start time and every
pending set, calling `addPod` twice with that snapshot yields the same pending
set as calling it once and emits no record; every continuation made only of
Updated events for that id runs exactly as after a single delivery and emits
at most one record. -/
theorem duplicate_observed_idempotent (startTime : Time) (watchPods : WatchPods)
    (pod : Pod) (updates : List Pod)
    (hnot : IsPodReady pod = false)
    (hafter : pod.CreationTimestamp.After startTime = true)
    (hid : ∀ u ∈ updates, u.UID = pod.UID) :
    run startTime watchPods [Event.AddFunc pod] = some [(insert pod.UID watchPods, [])] ∧
    run startTime watchPods [Event.AddFunc pod, Event.AddFunc pod]
      = some [(insert pod.UID watchPods, []), (insert pod.UID watchPods, [])] ∧
    ∃ cont,
      run startTime watchPods (Event.AddFunc pod :: updates.map Event.UpdateFunc)
        = some ((insert pod.UID watchPods, []) :: cont) ∧
      run startTime watchPods
        (Event.AddFunc pod :: Event.AddFunc pod :: updates.map Event.UpdateFunc)
        = some ((insert pod.UID watchPods, []) :: (insert pod.UID watchPods, []) :: cont) ∧
      (emitted cont).length ≤ 1 := by
  have hpass := Time.after_asymm hafter
  have hadd := addPod_pending watchPods hpass hnot
  have hadd2 : dispatch startTime (insert pod.UID watchPods) (Event.AddFunc pod)
      = some (insert pod.UID watchPods, []) := by
    have := addPod_pending (insert pod.UID watchPods) hpass hnot
    rw [Finset.insert_idem] at this
    exact this
  obtain ⟨cont, hcont, hle⟩ := run_updates_pending_at_most_one startTime
    (insert pod.UID watchPods) pod.UID updates (Finset.mem_insert_self _ _) hid
  exact ⟨run_cons_of_dispatch hadd rfl,
    run_cons_of_dispatch hadd (run_cons_of_dispatch hadd2 rfl),
    cont, run_cons_of_dispatch hadd hcont,
    run_cons_of_dispatch hadd (run_cons_of_dispatch hadd2 hcont), hle⟩

set_option maxRecDepth 8000 in
/-- Instance A of the scenario observed twice while C is pending. -/
theorem duplicate_observed_idempotent_witness :
    run start1000 {"c"} [Event.AddFunc podA0] = some [(insert podA0.UID {"c"}, [])] ∧
    run start1000 {"c"} [Event.AddFunc podA0, Event.AddFunc podA0]
      = some [(insert podA0.UID {"c"}, []), (insert podA0.UID {"c"}, [])] ∧
    ∃ cont,
      run start1000 {"c"} (Event.AddFunc podA0 :: [podA1, podA1].map Event.UpdateFunc)
        = some ((insert podA0.UID {"c"}, []) :: cont) ∧
      run start1000 {"c"}
        (Event.AddFunc podA0 :: Event.AddFunc podA0 :: [podA1, podA1].map Event.UpdateFunc)
        = some ((insert podA0.UID {"c"}, []) :: (insert podA0.UID {"c"}, []) :: cont) ∧
      (emitted cont).length ≤ 1 :=
  duplicate_observed_idempotent start1000 {"c"} podA0 [podA1, podA1]
    (by decide) (by decide) (by decide)

set_option maxRecDepth 8000 in
/-- C9 fails for `addPod`: a ready snapshot that passes the start-time filter
is recorded again when the same Observed event is handled a second time. -/
theorem addPod_ready_twice_emits_twice :
    addPod start1000 ∅ podA1 = some (∅, [{ name := "A", duration := 3000000000 }]) ∧
    run start1000 ∅ [Event.AddFunc podA1, Event.AddFunc podA1] =
      some [(∅, [{ name := "A", duration := 3000000000 }]),
            (∅, [{ name := "A", duration := 3000000000 }])] := by
  decide

/-- C9, amended: for every pending set, every snapshot and each of `addPod`,
`updatePod` and `deletePod`, handling the same event twice in immediate
succession leaves the same pending set as handling it once; the second
handling emits no record in `updatePod` and `deletePod`, and in `addPod` when
the snapshot is not ready or is discarded by the start-time filter.  For a
ready snapshot that passes the filter, the second `addPod` emits the same
record again. -/
theorem repeated_event_keeps_pending_set (startTime : Time) (watchPods : WatchPods)
    (pod : Pod) :
    (∃ w1 out, addPod startTime watchPods pod = some (w1, out) ∧
      addPod startTime w1 pod = some (w1,
        if startTime.After pod.CreationTimestamp || !IsPodReady pod then [] else out)) ∧
    (∃ w1 out, updatePod watchPods pod = some (w1, out) ∧
      updatePod w1 pod = some (w1, [])) ∧
    (∃ w1 out, deletePod watchPods pod = some (w1, out) ∧
      deletePod w1 pod = some (w1, [])) := by
  refine ⟨?_, ?_, ?_⟩
  · by_cases hold : startTime.After pod.CreationTimestamp = true
    · exact ⟨watchPods, [], addPod_discard watchPods hold, by
        rw [addPod_discard watchPods hold]; simp [hold]⟩
    · have hpass : startTime.After pod.CreationTimestamp = false := by simpa using hold
      by_cases hready : IsPodReady pod = true
      · obtain ⟨ready, hc, -⟩ := ready_condition_of_isPodReady hready
        exact ⟨watchPods, _, addPod_ready watchPods hpass hready hc, by
          rw [addPod_ready watchPods hpass hready hc]; simp [hpass, hready]⟩
      · have hnot : IsPodReady pod = false := by simpa using hready
        exact ⟨insert pod.UID watchPods, [], addPod_pending watchPods hpass hnot, by
          rw [addPod_pending _ hpass hnot, Finset.insert_idem]; simp [hnot]⟩
  · by_cases hready : IsPodReady pod = true
    · by_cases hmem : pod.UID ∈ watchPods
      · obtain ⟨ready, hc, -⟩ := ready_condition_of_isPodReady hready
        exact ⟨watchPods.erase pod.UID, _, updatePod_emit hmem hready hc,
          updatePod_absent (Finset.not_mem_erase _ _)⟩
      · exact ⟨watchPods, [], updatePod_absent hmem, updatePod_absent hmem⟩
    · have hnot : IsPodReady pod = false := by simpa using hready
      exact ⟨watchPods, [], updatePod_notReady watchPods hnot,
        updatePod_notReady watchPods hnot⟩
  · refine ⟨watchPods.erase pod.UID, [], deletePod_eq watchPods pod, ?_⟩
    rw [deletePod_eq, Finset.erase_idem]

/-! ## The pending set along a run -/

theorem run_pending_iff (startTime : Time) (X : UID) (events : List Event) :
    ∀ w : WatchPods, ∃ steps, run startTime w events = some steps ∧
      (X ∈ finalPods w steps ↔
        (enteredAndNotCleared (Event.entersPending startTime X) (Event.clearsPending X)
            events = true ∨
          (X ∈ w ∧ events.all (fun later => !Event.clearsPending X later) = true))) := by
  induction events with
  | nil =>
    intro w
    exact ⟨[], rfl, by simp [finalPods, enteredAndNotCleared]⟩
  | cons e rest ih =>
    intro w
    obtain ⟨w1, out, hd, hmem, -⟩ := dispatch_step startTime w e
    obtain ⟨steps, hs, hiff⟩ := ih w1
    refine ⟨(w1, out) :: steps, run_cons_of_dispatch hd hs, ?_⟩
    rw [finalPods_cons, hiff, hmem X]
    simp only [enteredAndNotCleared, List.all_cons, Bool.or_eq_true, Bool.and_eq_true,
      Bool.not_eq_true']
    tauto

set_option maxRecDepth 8000 in
/-- C10 fails as stated: after an Observed not-ready snapshot, an Observed
ready snapshot of the same id is recorded but leaves the id pending, although
an event after the not-ready observation has observed the id ready. -/
theorem pending_survives_ready_observed :
    (run start1000 ∅ [Event.AddFunc podA0, Event.AddFunc podA1]).map (finalPods ∅)
      = some {"a"} ∧
    enteredAndNotCleared (Event.entersPending start1000 "a")
      (Event.observedReadyOrRemoved "a") [Event.AddFunc podA0, Event.AddFunc podA1]
      = false := by
  decide

/-- C10, amended: starting from an empty pending set, after every finite
sequence of Observed, Updated and Removed events, an id is in the pending set
if and only if some event of the sequence was an Observed event for that id
with a not-ready snapshot that passed the start-time filter, and no event
after that one was a ready Updated event or a Removed event for the same id. -/
theorem pending_set_invariant (startTime : Time) (events : List Event) :
    ∃ steps, run startTime ∅ events = some steps ∧
      ∀ X, X ∈ finalPods ∅ steps ↔
        enteredAndNotCleared (Event.entersPending startTime X) (Event.clearsPending X)
          events = true := by
  obtain ⟨steps, hs, -⟩ := run_pending_iff startTime "" events ∅
  refine ⟨steps, hs, fun X => ?_⟩
  obtain ⟨steps1, hs1, hiff⟩ := run_pending_iff startTime X events ∅
  have heq : steps1 = steps := Option.some.inj (hs1.symm.trans hs)
  subst heq
  rw [hiff]
  simp

/-! ## Library facts: time differences that are not positive -/

/-- Adding zero leaves a representable time alone. -/
theorem Time.add_zero (u : Time) (hu : u.Representable) : u.Add 0 = u := by
  obtain ⟨hu1, hu2, hu3, hu4⟩ := hu
  cases u with
  | mk us un =>
  simp only at hu1 hu2 hu3 hu4
  have hw : wrap64 us = us := wrap64_of_fits hu1 hu2
  unfold Time.Add
  simp only [Int.zero_tdiv, Int.zero_tmod, Int.add_zero]
  split_ifs with h1 h2
  · omega
  · omega
  · unfold Time.addSec
    simp [hw]

/-- Adding a positive duration never moves the seconds backwards. -/
theorem Time.sec_le_add_pos (u : Time) (d : Int) (hu : u.Representable) (hd : 0 < d) :
    u.sec ≤ (u.Add d).sec := by
  obtain ⟨hu1, hu2, hu3, hu4⟩ := hu
  cases u with
  | mk us un =>
  simp only at hu1 hu2 hu3 hu4
  unfold Time.Add
  rw [Int.tdiv_eq_ediv (Int.le_of_lt hd) (by decide),
    Int.tmod_eq_emod (Int.le_of_lt hd) (by decide)]
  have hq : 0 ≤ d / 1000000000 := Int.ediv_nonneg (Int.le_of_lt hd) (by decide)
  have hr1 := Int.emod_nonneg d (show (1000000000 : Int) ≠ 0 by decide)
  have hr2 := Int.emod_lt_of_pos d (show (0 : Int) < 1000000000 by decide)
  generalize d / 1000000000 = q at *
  generalize d % 1000000000 = r at *
  simp only
  split_ifs with h1 h2
  · unfold Time.addSec
    simp only [decide_eq_decide]
    split_ifs with h3 h4
    · simp only
      omega
    · simp only
      omega
    · omega
  · omega
  · unfold Time.addSec
    simp only [decide_eq_decide]
    split_ifs with h3 h4
    · simp only
      unfold wrap64 at h3 ⊢
      omega
    · simp only
      omega
    · simp only
      unfold wrap64 at h3
      omega

/-- A time that is not after another one is at most zero away from it. -/
theorem Time.sub_nonpos (t u : Time) (ht : t.Representable) (hu : u.Representable)
    (h : t.After u = false) : t.Sub u ≤ 0 := by
  have hu' := hu
  obtain ⟨ht1, ht2, ht3, ht4⟩ := ht
  obtain ⟨hu1, hu2, hu3, hu4⟩ := hu
  unfold Time.After at h
  simp only [Bool.or_eq_false_iff, Bool.and_eq_false_iff, decide_eq_false_iff_not] at h
  change @LE.le Int _ (t.Sub u) 0
  unfold Time.Sub
  simp only
  by_cases hsec : t.sec = u.sec
  · -- same second: the raw difference is the nanosecond difference
    have hd : wrap64 (wrap64 (wrap64 (t.sec - u.sec) * Second) + (t.nsec - u.nsec))
        = t.nsec - u.nsec := by
      rw [wrap64_mul_add, hsec]
      unfold Second wrap64
      omega
    rw [hd]
    by_cases hn : t.nsec = u.nsec
    · have heq : t = u := by
        cases t; cases u; simp only at hsec hn; rw [hsec, hn]
      rw [heq, Int.sub_self, Time.add_zero u hu', Time.equal_self]
      simp
    · split_ifs
      · omega
      · unfold minDuration; omega
      · rename_i hb
        unfold Time.Before at hb
        simp only [Bool.or_eq_true, Bool.and_eq_true, decide_eq_true_eq, not_or, not_and] at hb
        omega
  · have hlt : t.sec < u.sec := by omega
    split_ifs with hE hB
    · by_contra hpos
      have hpos' : 0 < wrap64 (wrap64 (wrap64 (t.sec - u.sec) * Second) + (t.nsec - u.nsec)) := by
        omega
      have hle := Time.sec_le_add_pos u _ hu' hpos'
      unfold Time.Equal at hE
      simp only [Bool.and_eq_true, decide_eq_true_eq] at hE
      omega
    · unfold minDuration; omega
    · unfold Time.Before at hB
      simp only [Bool.or_eq_true, Bool.and_eq_true, decide_eq_true_eq, not_or, not_and] at hB
      omega

/-! ## Malformed snapshots -/

set_option maxRecDepth 8000 in
/-- C11 fails: a ready snapshot whose lastTransitionTime is the zero timestamp,
equals the creationTimestamp, or precedes it is not rejected.  Both callbacks
complete and log a record, with duration `minDuration`, zero and -3 s. -/
theorem malformed_snapshot_is_logged :
    IsPodReady podZ = true ∧
    GetPodReadyCondition podZ.Status = some (readyAt ⟨0, 0⟩) ∧
    addPod start1000 ∅ podZ
      = some (∅, [{ name := "Z", duration := -9223372036854775808 }]) ∧
    updatePod {"z"} podZ
      = some (∅, [{ name := "Z", duration := -9223372036854775808 }]) ∧
    addPod start1000 ∅ podS = some (∅, [{ name := "S", duration := 0 }]) ∧
    updatePod {"s"} podS = some (∅, [{ name := "S", duration := 0 }]) ∧
    addPod start1000 ∅ podN = some (∅, [{ name := "N", duration := -3000000000 }]) ∧
    updatePod {"n"} podN = some (∅, [{ name := "N", duration := -3000000000 }]) := by
  decide

/-- C11, amended: for every snapshot whose ready condition is true but whose
lastTransitionTime is not later than its creationTimestamp (the zero timestamp
included, for a creationTimestamp from year 1 on), `addPod` and `updatePod`
do not abandon the event: they complete and treat it like any ready snapshot,
so `addPod` (when the snapshot passes the start-time filter) and `updatePod`
(when the id is pending) emit a record, whose duration is zero or negative;
the membership of every other id in the pending set is untouched. -/
theorem malformed_snapshot_handled_as_ready (startTime : Time) (watchPods : WatchPods)
    (pod : Pod) (ready : PodCondition)
    (hc : GetPodReadyCondition pod.Status = some ready)
    (hready : IsPodReady pod = true)
    (h0 : pod.CreationTimestamp.Representable)
    (h1 : ready.LastTransitionTime.Representable)
    (hbad : ready.LastTransitionTime.After pod.CreationTimestamp = false) :
    ready.LastTransitionTime.Sub pod.CreationTimestamp ≤ 0 ∧
    (startTime.After pod.CreationTimestamp = false →
      addPod startTime watchPods pod = some (watchPods,
        [{ name := pod.Name,
           duration := ready.LastTransitionTime.Sub pod.CreationTimestamp }])) ∧
    (pod.UID ∈ watchPods →
      updatePod watchPods pod = some (watchPods.erase pod.UID,
        [{ name := pod.Name,
           duration := ready.LastTransitionTime.Sub pod.CreationTimestamp }])) ∧
    (∃ w1 out, addPod startTime watchPods pod = some (w1, out) ∧
      ∀ Y, Y ≠ pod.UID → (Y ∈ w1 ↔ Y ∈ watchPods)) ∧
    (∃ w1 out, updatePod watchPods pod = some (w1, out) ∧
      ∀ Y, Y ≠ pod.UID → (Y ∈ w1 ↔ Y ∈ watchPods)) := by
  refine ⟨Time.sub_nonpos _ _ h1 h0 hbad,
    fun hpass => addPod_ready watchPods hpass hready hc,
    fun hmem => updatePod_emit hmem hready hc, ?_, ?_⟩
  · by_cases hold : startTime.After pod.CreationTimestamp = true
    · exact ⟨_, _, addPod_discard watchPods hold, fun _ _ => Iff.rfl⟩
    · have hpass : startTime.After pod.CreationTimestamp = false := by simpa using hold
      exact ⟨_, _, addPod_ready watchPods hpass hready hc, fun _ _ => Iff.rfl⟩
  · by_cases hmem : pod.UID ∈ watchPods
    · exact ⟨_, _, updatePod_emit hmem hready hc, fun Y hY => by
        simp [Finset.mem_erase, hY]⟩
    · exact ⟨_, _, updatePod_absent hmem, fun _ _ => Iff.rfl⟩

set_option maxRecDepth 8000 in
/-- The snapshot without transition time: logged with a negative duration. -/
theorem malformed_snapshot_handled_as_ready_witness :
    (readyAt ⟨0, 0⟩).LastTransitionTime.Sub podZ.CreationTimestamp ≤ 0 ∧
    addPod start1000 {"a"} podZ = some ({"a"},
      [{ name := podZ.Name,
         duration := (readyAt ⟨0, 0⟩).LastTransitionTime.Sub podZ.CreationTimestamp }]) :=
  have h := malformed_snapshot_handled_as_ready start1000 {"a"} podZ (readyAt ⟨0, 0⟩)
    (by decide) (by decide) (by decide) (by decide) (by decide)
  ⟨h.1, h.2.1 (by decide)⟩

/-! ## The ready condition is present where it is read -/

/-- C12: in `addPod` and `updatePod` the ready condition is read only to build
a record, a record is built only when `IsPodReady` holds for the snapshot, and
whenever `IsPodReady` holds `GetPodReadyCondition` returns a condition (not
nil); so for every start time, pending set and snapshot both callbacks return
normally. -/
theorem ready_condition_present_when_read (startTime : Time) (watchPods : WatchPods)
    (pod : Pod) :
    (IsPodReady pod = true →
      ∃ ready, GetPodReadyCondition pod.Status = some ready ∧
        ready.Status = ConditionTrue) ∧
    (∃ w1 out, addPod startTime watchPods pod = some (w1, out) ∧
      (out ≠ [] → IsPodReady pod = true)) ∧
    (∃ w1 out, updatePod watchPods pod = some (w1, out) ∧
      (out ≠ [] → IsPodReady pod = true)) := by
  refine ⟨ready_condition_of_isPodReady, ?_, ?_⟩
  · by_cases hold : startTime.After pod.CreationTimestamp = true
    · exact ⟨_, _, addPod_discard watchPods hold, fun h => absurd rfl h⟩
    · have hpass : startTime.After pod.CreationTimestamp = false := by simpa using hold
      by_cases hready : IsPodReady pod = true
      · obtain ⟨ready, hc, -⟩ := ready_condition_of_isPodReady hready
        exact ⟨_, _, addPod_ready watchPods hpass hready hc, fun _ => hready⟩
      · have hnot : IsPodReady pod = false := by simpa using hready
        exact ⟨_, _, addPod_pending watchPods hpass hnot, fun h => absurd rfl h⟩
  · by_cases hready : IsPodReady pod = true
    · by_cases hmem : pod.UID ∈ watchPods
      · obtain ⟨ready, hc, -⟩ := ready_condition_of_isPodReady hready
        exact ⟨_, _, updatePod_emit hmem hready hc, fun _ => hready⟩
      · exact ⟨_, _, updatePod_absent hmem, fun h => absurd rfl h⟩
    · have hnot : IsPodReady pod = false := by simpa using hready
      exact ⟨_, _, updatePod_notReady watchPods hnot, fun h => absurd rfl h⟩

set_option maxRecDepth 8000 in
/-- Instance A of the scenario, ready: the condition is found. -/
theorem ready_condition_present_when_read_witness :
    ∃ ready, GetPodReadyCondition podA1.Status = some ready ∧
      ready.Status = ConditionTrue :=
  (ready_condition_present_when_read start1000 {"a"} podA1).1 (by decide)

/-! ## Frame of `updatePod` -/

/-- C14: for every pending set and every snapshot, if the snapshot is not
ready or its id is not in the pending set, `updatePod` emits no record and the
pending set after the call is the one before it; in the emitting case (ready
and pending) the pending set after the call is the previous set with that one
id removed: the id is gone and the membership of every other id is as before. -/
theorem updatePod_frame (watchPods : WatchPods) (pod : Pod) :
    (IsPodReady pod = false ∨ pod.UID ∉ watchPods →
      updatePod watchPods pod = some (watchPods, [])) ∧
    (IsPodReady pod = true → pod.UID ∈ watchPods →
      ∃ ready, GetPodReadyCondition pod.Status = some ready ∧
        updatePod watchPods pod = some (watchPods.erase pod.UID,
          [{ name := pod.Name,
             duration := ready.LastTransitionTime.Sub pod.CreationTimestamp }]) ∧
        pod.UID ∉ watchPods.erase pod.UID ∧
        ∀ Y, Y ≠ pod.UID → (Y ∈ watchPods.erase pod.UID ↔ Y ∈ watchPods)) := by
  constructor
  · rintro (hnot | habs)
    · exact updatePod_notReady watchPods hnot
    · exact updatePod_absent habs
  · intro hready hmem
    obtain ⟨ready, hc, -⟩ := ready_condition_of_isPodReady hready
    exact ⟨ready, hc, updatePod_emit hmem hready hc, Finset.not_mem_erase _ _,
      fun Y hY => by simp [Finset.mem_erase, hY]⟩

set_option maxRecDepth 8000 in
/-- Instance A of the scenario: a not-ready update, an update of an id that is
not pending, and the emitting update. -/
theorem updatePod_frame_witness :
    updatePod {"a", "c"} podA0 = some ({"a", "c"}, []) ∧
    updatePod {"c"} podA1 = some ({"c"}, []) ∧
    ∃ ready, GetPodReadyCondition podA1.Status = some ready ∧
      updatePod {"a", "c"} podA1 = some (({"a", "c"} : WatchPods).erase podA1.UID,
        [{ name := podA1.Name,
           duration := ready.LastTransitionTime.Sub podA1.CreationTimestamp }]) ∧
      podA1.UID ∉ ({"a", "c"} : WatchPods).erase podA1.UID ∧
      ∀ Y, Y ≠ podA1.UID →
        (Y ∈ ({"a", "c"} : WatchPods).erase podA1.UID ↔ Y ∈ ({"a", "c"} : WatchPods)) :=
  ⟨(updatePod_frame {"a", "c"} podA0).1 (Or.inl (by decide)),
   (updatePod_frame {"c"} podA1).1 (Or.inr (by decide)),
   (updatePod_frame {"a", "c"} podA1).2 (by decide) (by decide)⟩

/-! ## Emission budget -/

/-- One event adds at most as much to the records of `X` plus its pending mark
as it adds to the count of Observed snapshots of `X` that pass the filter. -/
theorem dispatch_budget (startTime : Time) (w : WatchPods) (e : Event) (X : UID) :
    ∃ w1 out, dispatch startTime w e = some (w1, out) ∧
      (if e.pod.UID = X then out else []).length + (if X ∈ w1 then 1 else 0)
        ≤ (if e.observedPassing startTime X = true then 1 else 0)
          + (if X ∈ w then 1 else 0) := by
  cases e with
  | AddFunc p =>
    by_cases hold : startTime.After p.CreationTimestamp = true
    · refine ⟨w, [], addPod_discard w hold, ?_⟩
      simp
    · have hpass : startTime.After p.CreationTimestamp = false := by simpa using hold
      by_cases hready : IsPodReady p = true
      · obtain ⟨ready, hc, -⟩ := ready_condition_of_isPodReady hready
        refine ⟨w, _, addPod_ready w hpass hready hc, ?_⟩
        by_cases hX : p.UID = X <;>
          simp [Event.observedPassing, Event.isAdd, Event.pod, hpass, hX]
      · have hnot : IsPodReady p = false := by simpa using hready
        refine ⟨insert p.UID w, [], addPod_pending w hpass hnot, ?_⟩
        by_cases hX : p.UID = X
        · subst hX
          simp [Event.observedPassing, Event.isAdd, Event.pod, hpass]
        · have hX2 : ¬ X = p.UID := fun h => hX h.symm
          simp [Event.observedPassing, Event.isAdd, Event.pod, hX, hX2, Finset.mem_insert]
  | UpdateFunc p =>
    by_cases hready : IsPodReady p = true
    · by_cases hmem : p.UID ∈ w
      · obtain ⟨ready, hc, -⟩ := ready_condition_of_isPodReady hready
        refine ⟨w.erase p.UID, _, updatePod_emit hmem hready hc, ?_⟩
        by_cases hX : p.UID = X
        · subst hX
          simp [Event.observedPassing, Event.isUpdate, Event.isAdd, Event.pod, hmem]
        · have hX2 : ¬ X = p.UID := fun h => hX h.symm
          simp [Event.observedPassing, Event.isAdd, Event.pod, hX, hX2, Finset.mem_erase]
      · refine ⟨w, [], updatePod_absent hmem, ?_⟩
        simp
    · have hnot : IsPodReady p = false := by simpa using hready
      refine ⟨w, [], updatePod_notReady w hnot, ?_⟩
      simp
  | DeleteFunc p =>
    refine ⟨w.erase p.UID, [], deletePod_eq w p, ?_⟩
    by_cases hX : X ∈ w.erase p.UID
    · have : X ∈ w := Finset.mem_of_mem_erase hX
      simp [hX, this]
    · simp [hX]

/-- The budget along a run from any pending set. -/
theorem run_budget (startTime : Time) (X : UID) (events : List Event) :
    ∀ w : WatchPods, ∃ steps, run startTime w events = some steps ∧
      (recordsFor X events steps).length + (if X ∈ finalPods w steps then 1 else 0)
        ≤ (events.filter (Event.observedPassing startTime X)).length
          + (if X ∈ w then 1 else 0) := by
  induction events with
  | nil => intro w; exact ⟨[], rfl, by simp [recordsFor, finalPods]⟩
  | cons e rest ih =>
    intro w
    obtain ⟨w1, out, hd, hstep⟩ := dispatch_budget startTime w e X
    obtain ⟨steps, hs, hrest⟩ := ih w1
    refine ⟨(w1, out) :: steps, run_cons_of_dispatch hd hs, ?_⟩
    rw [finalPods_cons]
    simp only [recordsFor, List.length_append, List.filter_cons]
    by_cases hobs : e.observedPassing startTime X = true
    · simp only [hobs, if_true, List.length_cons] at hstep ⊢
      omega
    · have hobs2 : e.observedPassing startTime X = false := by simpa using hobs
      simp only [hobs2, Bool.false_eq_true, if_false] at hstep ⊢
      omega

/-- C15: starting from an empty pending set, after every finite sequence of
Observed, Updated and Removed events and for every id X, the number of records
emitted by events carrying X plus one if X is pending is at most the number of
Observed events carrying X whose snapshot passed the start-time filter.  In
particular an id never observed through `addPod` never produces a record, and
`updatePod` and `deletePod` never insert an id. -/
theorem emission_budget (startTime : Time) (events : List Event) :
    (∃ steps, run startTime ∅ events = some steps ∧
      (∀ X, (recordsFor X events steps).length
          + (if X ∈ finalPods ∅ steps then 1 else 0)
          ≤ (events.filter (Event.observedPassing startTime X)).length) ∧
      (∀ X, (∀ e ∈ events, e.isAdd = true → e.pod.UID ≠ X) →
        recordsFor X events steps = [])) ∧
    (∀ (w : WatchPods) (pod : Pod),
      (∃ w1 out, updatePod w pod = some (w1, out) ∧ w1 ⊆ w) ∧
      (∃ w1 out, deletePod w pod = some (w1, out) ∧ w1 ⊆ w)) := by
  constructor
  · obtain ⟨steps, hs, -⟩ := run_budget startTime "" events ∅
    have hbudget : ∀ X, (recordsFor X events steps).length
        + (if X ∈ finalPods ∅ steps then 1 else 0)
        ≤ (events.filter (Event.observedPassing startTime X)).length := by
      intro X
      obtain ⟨steps1, hs1, hle⟩ := run_budget startTime X events ∅
      have heq : steps1 = steps := Option.some.inj (hs1.symm.trans hs)
      subst heq
      simpa using hle
    refine ⟨steps, hs, hbudget, ?_⟩
    intro X hnone
    have hzero : events.filter (Event.observedPassing startTime X) = [] := by
      rw [List.filter_eq_nil_iff]
      intro e he hobs
      unfold Event.observedPassing at hobs
      simp only [Bool.and_eq_true, decide_eq_true_eq] at hobs
      exact hnone e he hobs.1.1 hobs.1.2
    have hle := hbudget X
    rw [hzero] at hle
    have hlen : (recordsFor X events steps).length = 0 := by
      simp only [List.length_nil] at hle
      omega
    exact List.length_eq_zero.mp hlen
  · intro w pod
    constructor
    · by_cases hready : IsPodReady pod = true
      · by_cases hmem : pod.UID ∈ w
        · obtain ⟨ready, hc, -⟩ := ready_condition_of_isPodReady hready
          exact ⟨_, _, updatePod_emit hmem hready hc, Finset.erase_subset _ _⟩
        · exact ⟨_, _, updatePod_absent hmem, Finset.Subset.refl _⟩
      · have hnot : IsPodReady pod = false := by simpa using hready
        exact ⟨_, _, updatePod_notReady w hnot, Finset.Subset.refl _⟩
    · exact ⟨_, _, deletePod_eq w pod, Finset.erase_subset _ _⟩

set_option maxRecDepth 8000 in
/-- The instance with id "z" is updated and removed but never observed: no
record is attributed to it. -/
theorem emission_budget_witness :
    ∃ steps,
      run start1000 ∅ [Event.AddFunc podA0, Event.UpdateFunc podZ, Event.UpdateFunc podA1,
        Event.DeleteFunc podZ] = some steps ∧
      recordsFor "z" [Event.AddFunc podA0, Event.UpdateFunc podZ, Event.UpdateFunc podA1,
        Event.DeleteFunc podZ] steps = [] :=
  let ⟨steps, hrun, _, hnone⟩ :=
    (emission_budget start1000 [Event.AddFunc podA0, Event.UpdateFunc podZ,
      Event.UpdateFunc podA1, Event.DeleteFunc podZ]).1
  ⟨steps, hrun, hnone "z" (by decide)⟩

/-! ## Independence of instances -/

/-- An event leaves alone the membership of every id other than its own. -/
theorem dispatch_frame (startTime : Time) (w : WatchPods) (e : Event) :
    ∃ w1 out, dispatch startTime w e = some (w1, out) ∧
      ∀ Y, Y ≠ e.pod.UID → (Y ∈ w1 ↔ Y ∈ w) := by
  obtain ⟨w1, out, hd, hmem, -⟩ := dispatch_step startTime w e
  refine ⟨w1, out, hd, ?_⟩
  intro Y hY
  rw [hmem Y]
  have hY2 : ¬ e.pod.UID = Y := fun h => hY h.symm
  cases e <;> simp_all [Event.entersPending, Event.clearsPending, Event.pod]

/-- What an event emits, and whether its id is pending afterwards, depends on
the pending set only through the membership of that id. -/
theorem dispatch_congr (startTime : Time) (w w2 : WatchPods) (e : Event)
    (h : e.pod.UID ∈ w ↔ e.pod.UID ∈ w2) :
    ∃ w1 w3 out, dispatch startTime w e = some (w1, out) ∧
      dispatch startTime w2 e = some (w3, out) ∧
      (e.pod.UID ∈ w1 ↔ e.pod.UID ∈ w3) := by
  cases e with
  | AddFunc p =>
    simp only [Event.pod] at h
    by_cases hold : startTime.After p.CreationTimestamp = true
    · exact ⟨_, _, _, addPod_discard w hold, addPod_discard w2 hold, h⟩
    · have hpass : startTime.After p.CreationTimestamp = false := by simpa using hold
      by_cases hready : IsPodReady p = true
      · obtain ⟨ready, hc, -⟩ := ready_condition_of_isPodReady hready
        exact ⟨_, _, _, addPod_ready w hpass hready hc, addPod_ready w2 hpass hready hc, h⟩
      · have hnot : IsPodReady p = false := by simpa using hready
        exact ⟨_, _, _, addPod_pending w hpass hnot, addPod_pending w2 hpass hnot, by
          simp [Event.pod]⟩
  | UpdateFunc p =>
    simp only [Event.pod] at h
    by_cases hready : IsPodReady p = true
    · by_cases hmem : p.UID ∈ w
      · obtain ⟨ready, hc, -⟩ := ready_condition_of_isPodReady hready
        exact ⟨_, _, _, updatePod_emit hmem hready hc, updatePod_emit (h.mp hmem) hready hc, by
          simp [Event.pod]⟩
      · exact ⟨_, _, _, updatePod_absent hmem, updatePod_absent (fun h2 => hmem (h.mpr h2)), h⟩
    · have hnot : IsPodReady p = false := by simpa using hready
      exact ⟨_, _, _, updatePod_notReady w hnot, updatePod_notReady w2 hnot, h⟩
  | DeleteFunc p =>
    exact ⟨_, _, _, deletePod_eq w p, deletePod_eq w2 p, by simp [Event.pod]⟩

/-- The records of `X` and its final membership in a run are those of the run
of the events carrying `X` alone, from any pending set that agrees on `X`. -/
theorem run_projection (startTime : Time) (X : UID) (events : List Event) :
    ∀ w w2 : WatchPods, (X ∈ w ↔ X ∈ w2) →
      ∃ s sX, run startTime w events = some s ∧
        run startTime w2 (eventsFor X events) = some sX ∧
        recordsFor X events s = emitted sX ∧
        (X ∈ finalPods w s ↔ X ∈ finalPods w2 sX) := by
  induction events with
  | nil => intro w w2 h; exact ⟨[], [], rfl, rfl, rfl, h⟩
  | cons e rest ih =>
    intro w w2 h
    by_cases hX : e.pod.UID = X
    · have h' : e.pod.UID ∈ w ↔ e.pod.UID ∈ w2 := by rw [hX]; exact h
      obtain ⟨w1, w3, out, hd, hd2, hmem⟩ := dispatch_congr startTime w w2 e h'
      rw [hX] at hmem
      obtain ⟨s, sX, hs, hsX, hrec, hfin⟩ := ih w1 w3 hmem
      have hfilter : eventsFor X (e :: rest) = e :: eventsFor X rest := by
        simp [eventsFor, hX]
      refine ⟨(w1, out) :: s, (w3, out) :: sX, run_cons_of_dispatch hd hs, ?_, ?_, ?_⟩
      · rw [hfilter]; exact run_cons_of_dispatch hd2 hsX
      · simp [recordsFor, hX, hrec, emitted_cons]
      · rw [finalPods_cons, finalPods_cons]; exact hfin
    · obtain ⟨w1, out, hd, hframe⟩ := dispatch_frame startTime w e
      have hmem : X ∈ w1 ↔ X ∈ w2 := (hframe X (fun h2 => hX h2.symm)).trans h
      obtain ⟨s, sX, hs, hsX, hrec, hfin⟩ := ih w1 w2 hmem
      have hfilter : eventsFor X (e :: rest) = eventsFor X rest := by
        simp [eventsFor, hX]
      refine ⟨(w1, out) :: s, sX, run_cons_of_dispatch hd hs, ?_, ?_, ?_⟩
      · rw [hfilter]; exact hsX
      · simp [recordsFor, hX, hrec]
      · rw [finalPods_cons]; exact hfin

/-- C16: for every two event sequences that contain the same subsequence of
events carrying id X, run from the same pending set and start time, the
records emitted by the events carrying X are the same in both runs and X is in
both final pending sets or in neither; and each of `addPod`, `updatePod` and
`deletePod` leaves the membership of every id other than the snapshot's own
unchanged. -/
theorem instances_do_not_interfere (startTime : Time) (watchPods : WatchPods) (X : UID)
    (events1 events2 : List Event)
    (hsame : eventsFor X events1 = eventsFor X events2) :
    (∃ s1 s2, run startTime watchPods events1 = some s1 ∧
      run startTime watchPods events2 = some s2 ∧
      recordsFor X events1 s1 = recordsFor X events2 s2 ∧
      (X ∈ finalPods watchPods s1 ↔ X ∈ finalPods watchPods s2)) ∧
    (∀ (w : WatchPods) (pod : Pod),
      (∃ w1 out, addPod startTime w pod = some (w1, out) ∧
        ∀ Y, Y ≠ pod.UID → (Y ∈ w1 ↔ Y ∈ w)) ∧
      (∃ w1 out, updatePod w pod = some (w1, out) ∧
        ∀ Y, Y ≠ pod.UID → (Y ∈ w1 ↔ Y ∈ w)) ∧
      (∃ w1 out, deletePod w pod = some (w1, out) ∧
        ∀ Y, Y ≠ pod.UID → (Y ∈ w1 ↔ Y ∈ w))) := by
  constructor
  · obtain ⟨s1, sX1, hs1, hp1, hrec1, hfin1⟩ :=
      run_projection startTime X events1 watchPods watchPods Iff.rfl
    obtain ⟨s2, sX2, hs2, hp2, hrec2, hfin2⟩ :=
      run_projection startTime X events2 watchPods watchPods Iff.rfl
    rw [hsame] at hp1
    have heq : sX1 = sX2 := Option.some.inj (hp1.symm.trans hp2)
    subst heq
    exact ⟨s1, s2, hs1, hs2, hrec1.trans hrec2.symm, hfin1.trans hfin2.symm⟩
  · intro w pod
    exact ⟨dispatch_frame startTime w (Event.AddFunc pod),
      dispatch_frame startTime w (Event.UpdateFunc pod),
      dispatch_frame startTime w (Event.DeleteFunc pod)⟩

set_option maxRecDepth 8000 in
/-- Instance A alone, and instance A interleaved with instances B and C. -/
theorem instances_do_not_interfere_witness :
    ∃ s1 s2,
      run start1000 ∅ [Event.AddFunc podA0, Event.UpdateFunc podA1] = some s1 ∧
      run start1000 ∅ [Event.AddFunc podC, Event.AddFunc podA0, Event.AddFunc podB,
        Event.DeleteFunc podC, Event.UpdateFunc podA1, Event.UpdateFunc podB] = some s2 ∧
      recordsFor "a" [Event.AddFunc podA0, Event.UpdateFunc podA1] s1 =
        recordsFor "a" [Event.AddFunc podC, Event.AddFunc podA0, Event.AddFunc podB,
          Event.DeleteFunc podC, Event.UpdateFunc podA1, Event.UpdateFunc podB] s2 ∧
      ("a" ∈ finalPods ∅ s1 ↔ "a" ∈ finalPods ∅ s2) :=
  (instances_do_not_interfere start1000 ∅ "a"
    [Event.AddFunc podA0, Event.UpdateFunc podA1]
    [Event.AddFunc podC, Event.AddFunc podA0, Event.AddFunc podB,
      Event.DeleteFunc podC, Event.UpdateFunc podA1, Event.UpdateFunc podB]
    (by decide)).1

end PodStartup
